import Mathlib

/-!
Verification development for the task-scheduler subsystem (scheduler.py) of the
claude-telegram-bot repository.

Modelling conventions, used throughout:

* Naive `datetime` values are modelled as `Int` microseconds since an abstract
  epoch fixed at 2024-01-01 00:00:00 (2024-01-01 is a Monday, so Python's
  `weekday()` — Monday = 0 — becomes a floor-division/remainder computation).
  Python's `//` and `%` on ints agree with Lean's `/` and `%` on `Int`
  (both floor/Euclidean) for the positive divisors used here.
* Python strings are Lean `String`s; the character-level operations the source
  uses (`split`, `strip`, `lower`, `in`, `int(...)`) are re-implemented on
  `List Char` below, following CPython semantics (ASCII subset).
* Fallible Python code (statements that can raise) is modelled with
  `Option`/`Except`; a caught exception is the `none`/`.error` branch.
-/

/-! ## Time arithmetic (microseconds) -/

def usSec : Int := 1000000

def usMin : Int := 60000000

def usHour : Int := 3600000000

def usDay : Int := 86400000000

def usWeek : Int := 604800000000

/-- Day number of a datetime (days since the Monday epoch), i.e. floor division. -/
def dayIndex (t : Int) : Int := t / usDay

/-- Python `datetime.weekday()`: 0 = Monday, since the epoch is a Monday. -/
def weekdayOf (t : Int) : Int := dayIndex t % 7

/-- Microseconds since midnight of the same day. -/
def timeOfDay (t : Int) : Int := t % usDay

/-- Python `datetime.hour`. -/
def hourOf (t : Int) : Int := timeOfDay t / usHour

/-- Python `datetime.minute`. -/
def minuteOf (t : Int) : Int := (t % usHour) / usMin

/-- Python `dt.replace(hour=h, minute=m, second=0, microsecond=0)` (value only;
callers check the `0 ≤ h < 24`, `0 ≤ m < 60` validity that `replace` enforces
by raising `ValueError`). -/
def replaceHM (t h m : Int) : Int := dayIndex t * usDay + h * usHour + m * usMin

/-- Python `dt.replace(minute=m, second=0, microsecond=0)` (hour kept). -/
def replaceMin (t m : Int) : Int := (t / usHour) * usHour + m * usMin

/-! ## Character-level string primitives (CPython semantics, ASCII subset) -/

def isDigitCh (c : Char) : Bool := ('0' ≤ c && c ≤ '9')

def digitVal (c : Char) : Nat := c.toNat - ('0').toNat

def isWsCh (c : Char) : Bool :=
  (c = ' ' || c = '\t' || c = '\n' || c = '\r' || c = Char.ofNat 11 || c = Char.ofNat 12)

def lowerCh (c : Char) : Char :=
  if 'A' ≤ c && c ≤ 'Z' then Char.ofNat (c.toNat + 32) else c

def lowerL (l : List Char) : List Char := l.map lowerCh

def dropWsLead : List Char → List Char
  | [] => []
  | c :: cs => if isWsCh c then dropWsLead cs else c :: cs

/-- Python `str.strip()`. -/
def pyStrip (l : List Char) : List Char :=
  dropWsLead ((dropWsLead l.reverse).reverse)

/-- Python `str.split(sep)` for a one-character separator. -/
def splitOnCh (sep : Char) : List Char → List (List Char)
  | [] => [[]]
  | c :: cs =>
    if c = sep then [] :: splitOnCh sep cs
    else
      match splitOnCh sep cs with
      | [] => [[c]]
      | p :: ps => (c :: p) :: ps

def splitWsAux : List Char → List Char → List (List Char)
  | [], acc => if acc = [] then [] else [acc.reverse]
  | c :: cs, acc =>
    if isWsCh c then
      (if acc = [] then splitWsAux cs [] else acc.reverse :: splitWsAux cs [])
    else splitWsAux cs (c :: acc)

/-- Python `str.split()` with no argument: split on whitespace runs, no empties. -/
def splitWs (l : List Char) : List (List Char) := splitWsAux l []

def leadsWith : List Char → List Char → Bool
  | [], _ => true
  | _ :: _, [] => false
  | p :: ps, c :: cs => (p = c && leadsWith ps cs)

/-- Python substring containment, `pat in l`. -/
def hasInfixL (pat : List Char) : List Char → Bool
  | [] => leadsWith pat []
  | c :: cs => (leadsWith pat (c :: cs) || hasInfixL pat cs)

/-! ## Decimal formatting (Python `str(int)`, `%02d`) -/

def digitCh (n : Nat) : Char := Char.ofNat (48 + n)

def natDecAux : Nat → Nat → List Char
  | 0, _ => []
  | fuel + 1, n => if n < 10 then [digitCh n] else natDecAux fuel (n / 10) ++ [digitCh (n % 10)]

def natDecL (n : Nat) : List Char := natDecAux (n + 1) n

def natDecS (n : Nat) : String := String.mk (natDecL n)

/-- Python `str(i)` for an int. -/
def intDecS (i : Int) : String :=
  if i < 0 then String.mk ('-' :: natDecL i.natAbs) else String.mk (natDecL i.natAbs)

def padZero (w : Nat) (l : List Char) : List Char :=
  List.replicate (w - l.length) '0' ++ l

def pad2 (n : Nat) : List Char := padZero 2 (natDecL n)

def pad4 (n : Nat) : List Char := padZero 4 (natDecL n)

/-! ## Python `int(str)` -/

def pyIntDigits : List Char → Option Nat → Option Nat
  | [], none => none
  | [], some n => some n
  | c :: cs, none =>
    if isDigitCh c then pyIntDigits cs (some (digitVal c)) else none
  | c :: cs, some n =>
    if isDigitCh c then pyIntDigits cs (some (n * 10 + digitVal c))
    else if c = '_' then
      match cs with
      | [] => none
      | d :: ds => if isDigitCh d then pyIntDigits ds (some (n * 10 + digitVal d)) else none
    else none

/-- Python `int(s)`: optional surrounding whitespace, optional sign, decimal
digits with single underscores allowed between digits; `none` models the
`ValueError`. -/
def pyIntL (l : List Char) : Option Int :=
  match pyStrip l with
  | [] => none
  | c :: cs =>
    if c = '+' then (pyIntDigits cs none).map (fun n => (n : Int))
    else if c = '-' then (pyIntDigits cs none).map (fun n => -(n : Int))
    else (pyIntDigits (c :: cs) none).map (fun n => (n : Int))

def pyIntS (s : String) : Option Int := pyIntL s.data

/-- Python `hour, minute = map(int, s.split(":"))`: exactly two fields, both
parsed by `int`; `none` models the raised `ValueError`. -/
def hmOfSpec (l : List Char) : Option (Int × Int) :=
  match splitOnCh ':' l with
  | [a, b] =>
    match pyIntL a, pyIntL b with
    | some h, some m => some (h, m)
    | _, _ => none
  | _ => none

/-! ## Proleptic Gregorian calendar (for `strftime` and `fromisoformat`) -/

def isLeapYear (y : Int) : Bool := (y % 4 = 0 && (y % 100 ≠ 0 || y % 400 = 0))

def monthLength (y m : Int) : Int :=
  if m = 2 then (if isLeapYear y then 29 else 28)
  else if m = 4 || m = 6 || m = 9 || m = 11 then 30
  else 31

/-- Days from 1970-01-01 to the epoch 2024-01-01. -/
def epochShift : Int := 19723

/-- Day count (relative to the 2024-01-01 epoch) of a civil date, via the
standard era decomposition of the proleptic Gregorian calendar. -/
def daysFromCivil (y m d : Int) : Int :=
  let y' := if m ≤ 2 then y - 1 else y
  let era := y' / 400
  let yoe := y' - era * 400
  let mp := if m > 2 then m - 3 else m + 9
  let doy := (153 * mp + 2) / 5 + d - 1
  let doe := yoe * 365 + yoe / 4 - yoe / 100 + doy
  era * 146097 + doe - 719468 - epochShift

/-- Civil date (year, month, day) of a day count relative to the 2024-01-01
epoch; inverse of `daysFromCivil`. -/
def civilFromDays (z0 : Int) : Int × Int × Int :=
  let z := z0 + epochShift + 719468
  let era := z / 146097
  let doe := z - era * 146097
  let yoe := (doe - doe / 1460 + doe / 36524 - doe / 146096) / 365
  let y := yoe + era * 400
  let doy := doe - (365 * yoe + yoe / 4 - yoe / 100)
  let mp := (5 * doy + 2) / 153
  let d := doy - (153 * mp + 2) / 5 + 1
  let m := if mp < 10 then mp + 3 else mp - 9
  (if m ≤ 2 then y + 1 else y, m, d)

def secondsFloor (t : Int) : Int := t / usSec

/-- Python `now.strftime('%Y%m%d%H%M%S')` as a function of the second count. -/
def fmtFromSeconds (s : Int) : String :=
  let z := s / 86400
  let sod := s % 86400
  match civilFromDays z with
  | (y, mo, d) =>
    String.mk (pad4 y.toNat ++ pad2 mo.toNat ++ pad2 d.toNat ++
      pad2 (sod / 3600).toNat ++ pad2 ((sod % 3600) / 60).toNat ++ pad2 (sod % 60).toNat)

def fmtStamp (t : Int) : String := fmtFromSeconds (secondsFloor t)

/-! ## `datetime.fromisoformat` (the subset emitted by `datetime.isoformat`) -/

/-- Parse exactly `k` decimal digits: value and remaining input. -/
def fixDigits : Nat → List Char → Option (Nat × List Char)
  | 0, l => some (0, l)
  | _ + 1, [] => none
  | k + 1, c :: cs =>
    if isDigitCh c then
      match fixDigits k cs with
      | some (n, rest) => some (digitVal c * 10 ^ k + n, rest)
      | none => none
    else none

/-- Fractional-second digits (1 to 6), scaled to microseconds. -/
def usFromFrac (ds : List Char) : Option Nat :=
  if ds.length = 0 || 6 < ds.length || !ds.all isDigitCh then none
  else some ((ds.foldl (fun a c => a * 10 + digitVal c) 0) * 10 ^ (6 - ds.length))

def isoTimeOf (l : List Char) : Option Int :=
  match fixDigits 2 l with
  | some (hh, ':' :: r2) =>
    match fixDigits 2 r2 with
    | some (mm, rest) =>
      let chk := fun (ss us : Nat) =>
        if hh < 24 && mm < 60 && ss < 60 then
          some ((hh : Int) * usHour + (mm : Int) * usMin + (ss : Int) * usSec + (us : Int))
        else none
      match rest with
      | [] => chk 0 0
      | ':' :: r3 =>
        match fixDigits 2 r3 with
        | some (ss, []) => chk ss 0
        | some (ss, '.' :: ds) =>
          match usFromFrac ds with
          | some us => chk ss us
          | none => none
        | _ => none
      | _ => none
    | none => none
  | _ => none

/-- Python `datetime.fromisoformat(s)`, restricted to the grammar
`YYYY-MM-DD[<sep>HH:MM[:SS[.ffffff]]]` that `datetime.isoformat` emits
(every string accepted by any CPython version starts with a 4-digit year and
dashes, so rejection of other shapes is faithful). `none` models the raised
`ValueError`/`TypeError`. -/
def isoParseL (l : List Char) : Option Int :=
  match fixDigits 4 l with
  | some (y, '-' :: r1) =>
    match fixDigits 2 r1 with
    | some (mo, '-' :: r2) =>
      match fixDigits 2 r2 with
      | some (d, rest) =>
        if 1 ≤ y && y ≤ 9999 && 1 ≤ mo && mo ≤ 12 && 1 ≤ d &&
            (d : Int) ≤ monthLength (y : Int) (mo : Int) then
          let base := daysFromCivil (y : Int) (mo : Int) (d : Int) * usDay
          match rest with
          | [] => some base
          | _sep :: tl =>
            match isoTimeOf tl with
            | some tod => some (base + tod)
            | none => none
        else none
      | _ => none
    | _ => none
  | _ => none

def isoParseS (s : String) : Option Int := isoParseL s.data

/-! ## Timestamp strings

A Python value that holds either the `isoformat` image of a datetime or an
arbitrary caller-supplied string. `datetime.isoformat` is injective and
`fromisoformat ∘ isoformat = id`, so an isoformat image is represented by the
underlying microsecond value rather than by its characters. -/

inductive TStr where
  | iso (t : Int)
  | raw (s : String)
deriving DecidableEq, Repr

/-- Python truthiness of the string: only the empty string is falsy (an
isoformat image is never empty). -/
def TStr.falsy : TStr → Bool
  | .iso _ => false
  | .raw s => s = ""

/-- Python `datetime.fromisoformat` applied to a stored timestamp string. -/
def TStr.parse : TStr → Option Int
  | .iso t => some t
  | .raw s => isoParseS s

/-- Python truthiness of an `Optional[str]` field: `None` and `""` are falsy. -/
def optFalsy : Option TStr → Bool
  | none => true
  | some ts => ts.falsy

/-- Python `datetime.fromisoformat(x)` for `x : Optional[str]`: `None` raises
`TypeError`, modelled as `none` like any other parse failure. -/
def optParse : Option TStr → Option Int
  | none => none
  | some ts => ts.parse

/-! ## ScheduledTask (the dataclass of scheduler.py) -/

structure ScheduledTask where
  task_id : String
  user_id : Int
  chat_id : Int
  prompt : String
  frequency : String
  time_spec : String
  use_tools : Bool
  enabled : Bool
  created_at : TStr
  last_run : Option TStr
  next_run : Option TStr
  run_count : Int
  description : String
deriving DecidableEq, Repr

def dayNameLookup (p : List Char) : Option Int :=
  if p = ("monday").data then some 0
  else if p = ("tuesday").data then some 1
  else if p = ("wednesday").data then some 2
  else if p = ("thursday").data then some 3
  else if p = ("friday").data then some 4
  else if p = ("saturday").data then some 5
  else if p = ("sunday").data then some 6
  else none

/-- The day field of a weekly time_spec: `day_map` lookup first, else
`int(parts[0])` (whose `ValueError` is `none`). -/
def dayField (p0 : List Char) : Option Int :=
  match dayNameLookup p0 with
  | some d => some d
  | none => pyIntL p0

/-- The weekly branch of `_calculate_next_run`, up to the point where any of
its statements raises (`none`): index/unpack errors, `int` failures, and the
`replace` range check. Returns the computed instant. -/
def weeklyCalc (time_spec : String) (now : Int) : Option Int :=
  match splitWs (lowerL time_spec.data) with
  | p0 :: p1 :: _ =>
    match dayField p0 with
    | none => none
    | some target_day =>
      match hmOfSpec p1 with
      | none => none
      | some (h, m) =>
        if 0 ≤ h && h < 24 && 0 ≤ m && m < 60 then
          some (replaceHM
            (now + (if target_day - weekdayOf now < 0 ||
                      (target_day - weekdayOf now = 0 &&
                       hourOf now * 60 + minuteOf now ≥ h * 60 + m)
                    then target_day - weekdayOf now + 7
                    else target_day - weekdayOf now) * usDay) h m)
        else none
  | _ => none

/-- ScheduledTask._calculate_next_run. Each `frequency` branch wraps its body
in `try/except` with a per-frequency fallback; the once branch returns
`time_spec` verbatim (its `try` body cannot raise). -/
def calculateNextRun (frequency time_spec : String) (now : Int) : TStr :=
  if frequency = "once" then .raw time_spec
  else if frequency = "daily" then
    match hmOfSpec time_spec.data with
    | some (h, m) =>
      if 0 ≤ h && h < 24 && 0 ≤ m && m < 60 then
        let nt := replaceHM now h m
        .iso (if nt ≤ now then nt + usDay else nt)
      else .iso (now + usDay)
    | none => .iso (now + usDay)
  else if frequency = "weekly" then
    match weeklyCalc time_spec now with
    | some t => .iso t
    | none => .iso (now + usWeek)
  else if frequency = "hourly" then
    match pyIntL time_spec.data with
    | some m =>
      if 0 ≤ m && m < 60 then
        let nt := replaceMin now m
        .iso (if nt ≤ now then nt + usHour else nt)
      else .iso (now + usHour)
    | none => .iso (now + usHour)
  else if frequency = "custom" then
    match pyIntL time_spec.data with
    | some interval => .iso (now + interval * usMin)
    | none => .iso (now + usHour)
  else .iso (now + usHour)

/-- ScheduledTask.__post_init__: fill falsy `created_at` and `next_run`.
`nowC` and `nowN` are the two `datetime.now()` readings it can make (the
`if` nesting below is the cartesian expansion of the two independent
statements; neither statement affects the fields the other reads). -/
def postInit (t : ScheduledTask) (nowC nowN : Int) : ScheduledTask :=
  if t.created_at.falsy then
    if optFalsy t.next_run then
      { t with created_at := .iso nowC,
               next_run := some (calculateNextRun t.frequency t.time_spec nowN) }
    else { t with created_at := .iso nowC }
  else
    if optFalsy t.next_run then
      { t with next_run := some (calculateNextRun t.frequency t.time_spec nowN) }
    else t

/-- ScheduledTask.update_next_run: stamp `last_run`, bump `run_count`, then
either disable (frequency once) or recompute `next_run`. `nowL` and `nowN` are
the two `datetime.now()` readings. -/
def updateNextRun (t : ScheduledTask) (nowL nowN : Int) : ScheduledTask :=
  let t1 := { t with last_run := some (.iso nowL), run_count := t.run_count + 1 }
  if t1.frequency = "once" then { t1 with enabled := false }
  else { t1 with next_run := some (calculateNextRun t1.frequency t1.time_spec nowN) }

/-! ## Task store (TaskScheduler's in-memory dict and its JSON file)

The tasks dict is a key-ordered association list with unique keys (Python
dict semantics). The JSON file holds, per task id, the flat record of the 13
dataclass fields; `json.dump`/`json.load` round-trip those primitive field
values exactly, so the file is modelled by its decoded record list and
`asdict` by the identity. -/

def lookupTask : List (String × ScheduledTask) → String → Option ScheduledTask
  | [], _ => none
  | (k, v) :: rest, id => if k = id then some v else lookupTask rest id

/-- Python dict item assignment for an existing key: replace in place. -/
def replaceTask : List (String × ScheduledTask) → String → ScheduledTask →
    List (String × ScheduledTask)
  | [], _, _ => []
  | (k, v) :: rest, id, v' =>
    if k = id then (k, v') :: rest else (k, v) :: replaceTask rest id v'

/-- Python dict item assignment: replace if the key exists, append otherwise. -/
def storeTask (l : List (String × ScheduledTask)) (id : String) (v : ScheduledTask) :
    List (String × ScheduledTask) :=
  if (lookupTask l id).isSome then replaceTask l id v else l ++ [(id, v)]

abbrev keysNodup (l : List (String × ScheduledTask)) : Prop := (l.map Prod.fst).Nodup

structure SchedState where
  tasks : List (String × ScheduledTask)
  file : List (String × ScheduledTask)
deriving DecidableEq, Repr

/-- TaskScheduler._save_tasks: serialize every task (flat `asdict` records)
and rewrite the file. -/
def saveFile (tasks : List (String × ScheduledTask)) : List (String × ScheduledTask) :=
  tasks

/-- TaskScheduler._load_tasks on a readable file: `ScheduledTask(**task_data)`
for each stored record, in file order (each construction runs
`__post_init__`). -/
def loadFile (file : List (String × ScheduledTask)) (nowC nowN : Int) :
    List (String × ScheduledTask) :=
  file.map (fun p => (p.1, postInit p.2 nowC nowN))

/-- The task id built by add_task:
`f"task_{user_id}_{datetime.now().strftime('%Y%m%d%H%M%S')}"`. -/
def mkTaskId (user_id : Int) (now : Int) : String :=
  "task_" ++ intDecS user_id ++ "_" ++ fmtStamp now

/-- Python `prompt[:50]` / truncation by character count. -/
def strTake (s : String) (n : Nat) : String := String.mk (s.data.take n)

/-- TaskScheduler.add_task. `nowI`, `nowC`, `nowN` are the successive
`datetime.now()` readings (id stamp, `created_at`, `_calculate_next_run`).
The file rewrite of `_save_tasks` is shown for a successful write (a failed
write is caught and logged, leaving the file; no claim depends on it here). -/
def addTask (st : SchedState) (user_id chat_id : Int) (prompt frequency time_spec : String)
    (use_tools : Bool) (description : String) (nowI nowC nowN : Int) :
    SchedState × ScheduledTask :=
  let id := mkTaskId user_id nowI
  let task := postInit
    { task_id := id, user_id := user_id, chat_id := chat_id, prompt := prompt,
      frequency := frequency, time_spec := time_spec, use_tools := use_tools,
      enabled := true, created_at := .raw (""), last_run := none, next_run := none,
      run_count := 0,
      description := if description = "" then strTake prompt 50 else description }
    nowC nowN
  let tasks' := storeTask st.tasks id task
  (⟨tasks', saveFile tasks'⟩, task)

/-- TaskScheduler.toggle_task: flip `enabled` of an existing task, persist,
return the new status; `none` when the id is unknown. -/
def toggleTask (st : SchedState) (id : String) : SchedState × Option Bool :=
  match lookupTask st.tasks id with
  | none => (st, none)
  | some tk =>
    let tasks' := replaceTask st.tasks id { tk with enabled := !tk.enabled }
    (⟨tasks', saveFile tasks'⟩, some (!tk.enabled))

/-- TaskScheduler.remove_task. -/
def removeTask (st : SchedState) (id : String) : SchedState × Bool :=
  if (lookupTask st.tasks id).isSome then
    let tasks' := st.tasks.filter (fun p => p.1 != id)
    (⟨tasks', saveFile tasks'⟩, true)
  else (st, false)

/-! ## Task executor (TaskScheduler.execute_task)

External effects (claude_client.messages.create, call_mac, send_telegram,
the file write) are supplied by an oracle `ExecEnv`; each entry is the outcome
of the k-th call of that kind during one execution. An `Except`-valued step
models a Python statement that can raise. -/

inductive Block where
  | text (s : String)
  | toolUse (id name : String)
  | other
deriving DecidableEq, Repr

structure LLMResponse where
  stop_reason : String
  content : List Block
deriving DecidableEq, Repr

/-- Result of one `_execute_tool` dispatch. -/
inductive ToolRes where
  | mac (json : String)
  | notAvail (name : String)
  | errStr (e : String)
deriving DecidableEq, Repr

structure ExecEnv where
  llm : Nat → Except Unit LLMResponse
  mac : Nat → Except String String
  sendMain : Bool
  sendErr : Bool
  saveOk : Bool
  nowL : Int
  nowN : Int

def allowedTool (name : String) : Bool :=
  (name = "execute_mac_command" || name = "execute_applescript" || name = "read_mac_file" ||
   name = "take_screenshot" || name = "execute_javascript_in_chrome" || name = "check_mac_status")

/-- TaskScheduler._execute_tool: allow-listed names dispatch to call_mac (an
exception from call_mac is caught and becomes an error dict); unknown names
return a structured not-available dict. Never raises. -/
def execTool (env : ExecEnv) (k : Nat) (name : String) : ToolRes :=
  if allowedTool name then
    match env.mac k with
    | .ok j => .mac j
    | .error e => .errStr e
  else .notAvail name

/-- The `for block in assistant_content` body: dispatch every tool_use block in
order, keeping the call_mac call counter. -/
def runTools (env : ExecEnv) : List Block → Nat → List ToolRes × Nat
  | [], k => ([], k)
  | .toolUse _ name :: bs, k =>
    let r := execTool env k name
    let (rs, k') := runTools env bs (k + 1)
    (r :: rs, k')
  | _ :: bs, k => runTools env bs k

/-- The bounded tool-use loop of execute_task. `fuel` is
`max_iterations - iteration`, so the entry value 5 realizes
`while response.stop_reason == "tool_use" and iteration < max_iterations`.
Returns the final response, the number of loop iterations run, the total
count of messages.create calls made, and the tool-result trace; `.error`
is an uncaught exception from a messages.create call. -/
def toolLoop (env : ExecEnv) : Nat → LLMResponse → Nat → Nat →
    Except Unit (LLMResponse × Nat × Nat × List ToolRes)
  | 0, r, _, li => .ok (r, 0, li, [])
  | fuel + 1, r, ti, li =>
    if r.stop_reason = "tool_use" then
      match env.llm li with
      | .error _ => .error ()
      | .ok r' =>
        match toolLoop env fuel r' (runTools env r.content ti).2 (li + 1) with
        | .error _ => .error ()
        | .ok (rf, it, lf, trace) => .ok (rf, it + 1, lf, (runTools env r.content ti).1 ++ trace)
    else .ok (r, 0, li, [])

/-- Concatenation of the `.text` attributes of the blocks that have one
(`hasattr(block, "text")`). -/
def extractText : List Block → String
  | [] => ""
  | .text s :: bs => s ++ extractText bs
  | _ :: bs => extractText bs

/-- The Telegram header `f"[Scheduled Task: {task.description[:30]}]\n\n"`. -/
def mkHeader (task : ScheduledTask) : String :=
  "[Scheduled Task: " ++ strTake task.description 30 ++ "]\n\n"

structure BodyOut where
  taskAfter : ScheduledTask
  delivered : Option String
  loopIters : Nat
  llmCalls : Nat
  toolTrace : List ToolRes
deriving DecidableEq, Repr

/-- The `try` body of execute_task: first messages.create call, the bounded
tool loop, text extraction, conditional Telegram delivery, then
`task.update_next_run()`. `.error` is a raised-and-not-yet-caught exception.
The final `_save_tasks` (which catches internally and cannot raise) is applied
by the caller `executeTask`. -/
def executeTaskBody (env : ExecEnv) (task : ScheduledTask) : Except Unit BodyOut :=
  match env.llm 0 with
  | .error _ => .error ()
  | .ok r0 =>
    match toolLoop env 5 r0 0 1 with
    | .error _ => .error ()
    | .ok (rf, iters, llmN, trace) =>
      if extractText rf.content = "" then
        .ok { taskAfter := updateNextRun task env.nowL env.nowN, delivered := none,
              loopIters := iters, llmCalls := llmN, toolTrace := trace }
      else if env.sendMain then
        .ok { taskAfter := updateNextRun task env.nowL env.nowN,
              delivered := some (mkHeader task ++ extractText rf.content),
              loopIters := iters, llmCalls := llmN, toolTrace := trace }
      else .error ()

structure ExecReport where
  errored : Bool
  delivered : Option String
  notifyChat : Option Int
  notifySendOk : Option Bool
deriving DecidableEq, Repr

/-- TaskScheduler.execute_task: run the body; on success mutate the task in
the shared dict and persist; on any exception, catch it, attempt a best-effort
error notification to the task's chat (its own failure swallowed by the inner
`try/except: pass`), and return normally with every task field, the dict and
the file untouched. Total: no exception propagates to the caller. -/
def executeTask (env : ExecEnv) (task : ScheduledTask) (st : SchedState) :
    SchedState × ExecReport :=
  match executeTaskBody env task with
  | .ok b =>
    let tasks' := replaceTask st.tasks task.task_id b.taskAfter
    (⟨tasks', if env.saveOk then saveFile tasks' else st.file⟩,
     { errored := false, delivered := b.delivered, notifyChat := none, notifySendOk := none })
  | .error _ =>
    (st, { errored := true, delivered := none, notifyChat := some task.chat_id,
           notifySendOk := some env.sendErr })

/-! ## Scheduler loop (one scan of TaskScheduler._scheduler_loop)

One scan reads `now` once and iterates a snapshot of the task items; a task is
executed when it is enabled, its `next_run` parses, and `now >= next_run`
(a parse failure is caught by the per-task `except` and scanning continues).
`envs k` is the effect oracle of the k-th execution in the scan. -/

def scanTasks (envs : Nat → ExecEnv) (now : Int) :
    List (String × ScheduledTask) → SchedState → Nat → SchedState × List String
  | [], st, _ => (st, [])
  | (id, task) :: rest, st, k =>
    if task.enabled then
      match optParse task.next_run with
      | some tr =>
        if now ≥ tr then
          ((scanTasks envs now rest (executeTask (envs k) task st).1 (k + 1)).1,
           id :: (scanTasks envs now rest (executeTask (envs k) task st).1 (k + 1)).2)
        else scanTasks envs now rest st k
      | none => scanTasks envs now rest st k
    else scanTasks envs now rest st k

def scanOnce (st : SchedState) (now : Int) (envs : Nat → ExecEnv) :
    SchedState × List String :=
  scanTasks envs now st.tasks st 0

/-- Iterated scans: `nows n` is the wall-clock reading and `envss n` the
effect oracle of the n-th scan. -/
def scansN : Nat → SchedState → (Nat → Int) → (Nat → Nat → ExecEnv) → SchedState
  | 0, st, _, _ => st
  | n + 1, st, nows, envss => scansN n (scanOnce st (nows n) (envss n)).1 nows envss

/-! ## Natural-language schedule input (parse_schedule_input)

The regular-expression searches of the source are modelled by leftmost
scanners: try a deterministic matcher at every position, left to right. For
the concrete patterns used (whose tails are chains of optional groups), greedy
matching with skip-on-failure for optional groups coincides with Python's
backtracking search. -/

/-- Consume one-or-more whitespace characters, greedily. -/
def eatWs1 : List Char → Option (List Char)
  | [] => none
  | c :: cs => if isWsCh c then some (dropWsLead cs) else none

def eatLit (pat l : List Char) : Option (List Char) :=
  if leadsWith pat l then some (l.drop pat.length) else none

/-- Greedy one-or-two-digit capture. -/
def eatDigits12 : List Char → Option (Nat × List Char)
  | [] => none
  | c :: cs =>
    if isDigitCh c then
      match cs with
      | d :: ds =>
        if isDigitCh d then some (digitVal c * 10 + digitVal d, ds) else some (digitVal c, cs)
      | [] => some (digitVal c, [])
    else none

def eatDigitsAcc : List Char → Nat → Nat × List Char
  | [], acc => (acc, [])
  | c :: cs, acc =>
    if isDigitCh c then eatDigitsAcc cs (acc * 10 + digitVal c) else (acc, c :: cs)

/-- Greedy one-or-more-digit capture. -/
def eatDigitsAll : List Char → Option (Nat × List Char)
  | [] => none
  | c :: cs => if isDigitCh c then some (eatDigitsAcc cs (digitVal c)) else none

/-- Optional colon-plus-two-digit group, consumed only when fully present. -/
def optColon2 (l : List Char) : Option Nat × List Char :=
  match l with
  | ':' :: d1 :: d2 :: rest =>
    if isDigitCh d1 && isDigitCh d2 then (some (digitVal d1 * 10 + digitVal d2), rest)
    else (none, l)
  | _ => (none, l)

/-- Optional trailing am/pm group (`true` = pm). -/
def optAmPm (l : List Char) : Option Bool :=
  if leadsWith ("am").data l then some false
  else if leadsWith ("pm").data l then some true
  else none

/-- Optional `at`-plus-whitespace group: consumed only when fully present. -/
def eatOptAt (l : List Char) : List Char :=
  match eatLit ("at").data l with
  | some ra =>
    match eatWs1 ra with
    | some rb => rb
    | none => l
  | none => l

def searchWith {α : Type} (f : List Char → Option α) : List Char → Option α
  | [] => none
  | c :: cs =>
    match f (c :: cs) with
    | some r => some r
    | none => searchWith f cs

/-- One attempt of the daily pattern
`daily\s+(?:at\s+)?(\d{1,2})(?::(\d{2}))?\s*(am|pm)?`. -/
def matchDaily (l : List Char) : Option (Nat × Nat × Option Bool) :=
  match eatLit ("daily").data l with
  | none => none
  | some r1 =>
    match eatWs1 r1 with
    | none => none
    | some r2 =>
      match eatDigits12 (eatOptAt r2) with
      | none => none
      | some (h, r4) =>
        let p := optColon2 r4
        some (h, p.1.getD 0, optAmPm (dropWsLead p.2))

/-- One attempt of the bare time pattern `(\d{1,2})(?::(\d{2}))?\s*(am|pm)?`
(used by the weekly and tomorrow branches). -/
def matchTime (l : List Char) : Option (Nat × Nat × Option Bool) :=
  match eatDigits12 l with
  | none => none
  | some (h, r1) =>
    let p := optColon2 r1
    some (h, p.1.getD 0, optAmPm (dropWsLead p.2))

/-- One attempt of `(?:hourly|every\s+hour)\s+(?:at\s+)?:?(\d{1,2})`. -/
def matchHourly (l : List Char) : Option Nat :=
  let afterKw : Option (List Char) :=
    match eatLit ("hourly").data l with
    | some r => some r
    | none =>
      match eatLit ("every").data l with
      | none => none
      | some r1 =>
        match eatWs1 r1 with
        | none => none
        | some r2 => eatLit ("hour").data r2
  match afterKw with
  | none => none
  | some r =>
    match eatWs1 r with
    | none => none
    | some r2 =>
      let r3 := eatOptAt r2
      let r4 := match r3 with
                | ':' :: rest => rest
                | _ => r3
      match eatDigits12 r4 with
      | some (m, _) => some m
      | none => none

/-- One attempt of `every\s+(\d+)\s*(minute|hour)`; hours are normalized to
minutes as in the source. -/
def matchInterval (l : List Char) : Option Nat :=
  match eatLit ("every").data l with
  | none => none
  | some r1 =>
    match eatWs1 r1 with
    | none => none
    | some r2 =>
      match eatDigitsAll r2 with
      | none => none
      | some (n, r3) =>
        let r4 := dropWsLead r3
        if (eatLit ("minute").data r4).isSome then some n
        else if (eatLit ("hour").data r4).isSome then some (n * 60)
        else none

/-- The unit captured by group 2 of `in\s+(\d+)\s*(minute|hour|day)`. -/
inductive InUnit where
  | minute
  | hour
  | day
deriving DecidableEq, Repr

/-- `datetime.min` (0001-01-01 00:00:00) in microseconds since the embedding
epoch 2024-01-01. -/
def dtMin : Int := daysFromCivil 1 1 1 * usDay

/-- `datetime.max` (9999-12-31 23:59:59.999999) in microseconds since the
embedding epoch 2024-01-01. -/
def dtMax : Int := daysFromCivil 9999 12 31 * usDay + (usDay - 1)

/-- CPython's bound on a timedelta's normalized day count. -/
def tdDayBound : Int := 999999999

/-- `timedelta(minutes=n)` / `timedelta(hours=n)` / `timedelta(days=n)` for a
nonnegative captured `n`: the total is normalized to a day count which must
not exceed 999999999 days, else `OverflowError` (modelled as `.error ()`). -/
def pyTimedelta (n : Nat) (unit : InUnit) : Except Unit Int :=
  let us : Int :=
    match unit with
    | .minute => (n : Int) * usMin
    | .hour => (n : Int) * usHour
    | .day => (n : Int) * usDay
  if us / usDay ≤ tdDayBound then .ok us else .error ()

/-- `datetime.__add__`: `dt + delta` raises `OverflowError` (modelled as
`.error ()`) when the result falls outside `datetime.min ..datetime.max`. -/
def pyDatetimeAdd (dt delta : Int) : Except Unit Int :=
  if dtMin ≤ dt + delta && dt + delta ≤ dtMax then .ok (dt + delta) else .error ()

/-- One attempt of `in\s+(\d+)\s*(minute|hour|day)`, returning the captured
count and unit. -/
def matchIn (l : List Char) : Option (Nat × InUnit) :=
  match eatLit ("in").data l with
  | none => none
  | some r1 =>
    match eatWs1 r1 with
    | none => none
    | some r2 =>
      match eatDigitsAll r2 with
      | none => none
      | some (n, r3) =>
        let r4 := dropWsLead r3
        if (eatLit ("minute").data r4).isSome then some (n, InUnit.minute)
        else if (eatLit ("hour").data r4).isSome then some (n, InUnit.hour)
        else if (eatLit ("day").data r4).isSome then some (n, InUnit.day)
        else none

/-- The `in N` branch's datetime computation: build the timedelta from the
captures, then `datetime.now() + delta`; either step can overflow. -/
def inRunTime (now : Int) (n : Nat) (u : InUnit) : Except Unit Int :=
  match pyTimedelta n u with
  | .error _ => .error ()
  | .ok delta => pyDatetimeAdd now delta

def dayNames : List String :=
  ["monday", "tuesday", "wednesday", "thursday", "friday", "saturday", "sunday"]

/-- The source's `for day in days: if day in text` loop: first day name (in
list order) contained in the text. -/
def findDay (l : List Char) : Option String :=
  dayNames.find? (fun d => hasInfixL d.data l)

/-- The 12-hour adjustment: pm adds 12 to hours below 12, am maps 12 to 0. -/
def adjHour (h : Nat) (ap : Option Bool) : Nat :=
  match ap with
  | some true => if h < 12 then h + 12 else h
  | some false => if h = 12 then 0 else h
  | none => h

/-- Python `f"{hour:02d}:{minute:02d}"`. -/
def fmtHM (h m : Nat) : String := String.mk (pad2 h ++ ':' :: pad2 m)

/-- The time_spec member of parse_schedule_input's result: either a plain
string or the `isoformat` image of a computed datetime (once schedules). -/
inductive TimeSpec where
  | str (s : String)
  | isoDT (t : Int)
deriving DecidableEq, Repr

/-- The tail of parse_schedule_input: the `tomorrow` recognizer and the
final default. Both the no-"in " path and the "in "-with-unmatched-regex path
of the source fall through to exactly this code. `.error ()` models the two
uncaught errors of the branch: the `OverflowError` of
`datetime.now() + timedelta(days=1)` near `datetime.max`, and the
`ValueError` that `tomorrow.replace(...)` raises on an out-of-range captured
time. -/
def tomorrowBranch (t : List Char) (now : Int) : Except Unit (String × TimeSpec) :=
  if hasInfixL ("tomorrow").data t then
    match pyDatetimeAdd now usDay with
    | .error _ => .error ()
    | .ok tomorrow =>
      match searchWith matchTime t with
      | some (h, m, ap) =>
        if adjHour h ap < 24 && m < 60 then
          .ok ("once", .isoDT (replaceHM tomorrow ((adjHour h ap) : Int) (m : Int)))
        else .error ()
      | none => .ok ("once", .isoDT (replaceHM tomorrow 9 0))
  else .ok ("daily", .str ("09:00"))

/-- The body of parse_schedule_input after the `text.lower().strip()`
normalization, over the normalized character list `t`. `now` is whichever
`datetime.now()` reading the taken branch makes (at most one per call). -/
def parseScheduleCore (t : List Char) (now : Int) : Except Unit (String × TimeSpec) :=
  match searchWith matchDaily t with
  | some (h, m, ap) => .ok ("daily", .str (fmtHM (adjHour h ap) m))
  | none =>
    if hasInfixL ("every day").data t then .ok ("daily", .str ("09:00"))
    else
      match findDay t with
      | some day =>
        match searchWith matchTime t with
        | some (h, m, ap) =>
          .ok ("weekly", .str (day ++ " " ++ fmtHM (adjHour h ap) m))
        | none => .ok ("weekly", .str (day ++ " 09:00"))
      | none =>
        match searchWith matchHourly t with
        | some m => .ok ("hourly", .str (natDecS m))
        | none =>
          match searchWith matchInterval t with
          | some v => .ok ("custom", .str (natDecS v))
          | none =>
            match (if hasInfixL ("in ").data t then searchWith matchIn t else none) with
            | some (n, u) =>
              match inRunTime now n u with
              | .error _ => .error ()
              | .ok run_time => .ok ("once", .isoDT run_time)
            | none => tomorrowBranch t now

/-- parse_schedule_input: normalize with `text.lower().strip()`, then match
the recognizers in the source's order. -/
def parseScheduleInput (text : String) (now : Int) : Except Unit (String × TimeSpec) :=
  parseScheduleCore (pyStrip (lowerL text.data)) now

deriving instance DecidableEq for Except

/-! ## Fixtures for concrete evaluations -/

def respText : LLMResponse := { stop_reason := "end_turn", content := [Block.text ("done")] }

def respTU : LLMResponse :=
  { stop_reason := "tool_use", content := [Block.toolUse ("t1") ("check_mac_status")] }

def envOk : ExecEnv :=
  { llm := fun _ => .ok respText, mac := fun _ => .ok ("pong"), sendMain := true,
    sendErr := true, saveOk := true, nowL := 2 * usDay, nowN := 2 * usDay }

def envFail : ExecEnv :=
  { llm := fun _ => .error (), mac := fun _ => .ok ("pong"), sendMain := true,
    sendErr := true, saveOk := true, nowL := 2 * usDay, nowN := 2 * usDay }

def envSpin : ExecEnv :=
  { llm := fun _ => .ok respTU, mac := fun _ => .ok ("pong"), sendMain := true,
    sendErr := true, saveOk := true, nowL := 2 * usDay, nowN := 2 * usDay }

def task0 : ScheduledTask :=
  { task_id := "task_1_20240101000000", user_id := 1, chat_id := 5, prompt := "hello",
    frequency := "once", time_spec := "2024-01-01T00:00:00", use_tools := true,
    enabled := true, created_at := .iso 0, last_run := none,
    next_run := some (.raw ("2024-01-01T00:00:00")), run_count := 0, description := "hello" }

def st0 : SchedState :=
  ⟨[("task_1_20240101000000", task0)], [("task_1_20240101000000", task0)]⟩

/-! ## Supporting lemmas: scans and disabled tasks -/

/-- Invariant used for preservation: every entry's key is its task's own
`task_id` (true of every map the program builds), and every entry stored under
the distinguished key is disabled. -/
def goodFor (id : String) (l : List (String × ScheduledTask)) : Prop :=
  ∀ p ∈ l, p.2.task_id = p.1 ∧ (p.1 = id → p.2.enabled = false)

def task0d : ScheduledTask := { task0 with enabled := false }

def st0d : SchedState :=
  ⟨[("task_1_20240101000000", task0d)], [("task_1_20240101000000", task0d)]⟩

/-- Precondition under which every recurrence recomputation moves strictly
forward: daily and hourly always do; weekly does unless the day field parses
to an integer outside 0..6; custom does unless the parsed interval is below
one minute. -/
def tameRecurrence (freq spec : String) : Prop :=
  freq = "daily" ∨ freq = "hourly" ∨
  (freq = "weekly" ∧ ∀ d, (match splitWs (lowerL spec.data) with
                           | p0 :: _ :: _ => dayField p0
                           | _ => none) = some d → 0 ≤ d ∧ d < 7) ∨
  (freq = "custom" ∧ ∀ k, pyIntL spec.data = some k → 1 ≤ k)

def taskDaily : ScheduledTask :=
  { task0 with frequency := "daily", time_spec := "09:00", next_run := some (.iso 0) }

def taskC3 : ScheduledTask :=
  { task0 with frequency := "custom", time_spec := "0", next_run := some (.iso 0) }

/-! ## C5 -/

/-- A well-formed weekly time_spec per the claim: a weekday name or a digit
0..6 (0 = Monday) followed by a valid HH:MM. -/
def weeklyWF (spec : String) (target h m : Int) : Prop :=
  ∃ p0 p1, splitWs (lowerL spec.data) = [p0, p1] ∧ dayField p0 = some target ∧
    0 ≤ target ∧ target < 7 ∧ hmOfSpec p1 = some (h, m) ∧
    0 ≤ h ∧ h < 24 ∧ 0 ≤ m ∧ m < 60

/-! ## C2 -/

def taskOnceGarbage : ScheduledTask :=
  { task_id := "task_7_20240101000000", user_id := 7, chat_id := 7, prompt := "p",
    frequency := "once", time_spec := "garbage", use_tools := true, enabled := true,
    created_at := .raw (""), last_run := none, next_run := none, run_count := 0,
    description := "d" }

/-! ## C7 -/

/-- The construction invariant every in-memory task satisfies: a filled
`created_at`, a non-None `next_run`, and the only way `next_run` can be the
(falsy) empty string is the stable once-with-empty-spec case. -/
abbrev taskWF (t : ScheduledTask) : Prop :=
  t.created_at.falsy = false ∧ t.next_run ≠ none ∧
  (optFalsy t.next_run = true → t.frequency = "once" ∧ t.time_spec = "")

/-! ## C6: grammar-shape checkers and formatting lemmas -/

def allDigits (l : List Char) : Bool := l.all isDigitCh

/-- Grammar shape of an HH:MM field: two nonempty digit runs joined by one
colon (numeric ranges deliberately not constrained — see the amended claim). -/
def hmShapeL (l : List Char) : Bool :=
  match splitOnCh ':' l with
  | [a, b] => (!a.isEmpty && allDigits a && !b.isEmpty && allDigits b)
  | _ => false

abbrev freqOk (f : String) : Prop :=
  f = "once" ∨ f = "daily" ∨ f = "weekly" ∨ f = "hourly" ∨ f = "custom"

/-- Syntactic shape of the returned time_spec, per returned frequency. -/
def timeSpecShape (f : String) (ts : TimeSpec) : Prop :=
  if f = "daily" then
    match ts with
    | .str s => hmShapeL s.data = true
    | _ => False
  else if f = "weekly" then
    match ts with
    | .str s =>
      (match splitWs s.data with
       | [d, hm] => dayNames.contains (String.mk d) = true ∧ hmShapeL hm = true
       | _ => False)
    | _ => False
  else if f = "hourly" ∨ f = "custom" then
    match ts with
    | .str s => (!s.data.isEmpty && allDigits s.data) = true
    | _ => False
  else if f = "once" then
    match ts with
    | .isoDT _ => True
    | _ => False
  else False

/-- The disjunction of the recognizer conditions of parse_schedule_input: when
it is false, nothing recognizable was found and the default applies. -/
def recognizedCore (t : List Char) : Bool :=
  ((searchWith matchDaily t).isSome || hasInfixL ("every day").data t ||
   (findDay t).isSome || (searchWith matchHourly t).isSome ||
   (searchWith matchInterval t).isSome ||
   (hasInfixL ("in ").data t && (searchWith matchIn t).isSome) ||
   hasInfixL ("tomorrow").data t)

def recognizedInput (text : String) : Bool := recognizedCore (pyStrip (lowerL text.data))

/-- The claim-side (§4.1) daily grammar: HH:MM with hour 0..23 and minute
0..59. Used to refute the claimed conformance. -/
def validDailyHHMM (s : String) : Bool :=
  match splitOnCh ':' s.data with
  | [a, b] =>
    ((!a.isEmpty && allDigits a && !b.isEmpty && allDigits b) &&
     (match pyIntL a, pyIntL b with
      | some h, some m => (decide (0 ≤ h) && decide (h < 24) && decide (0 ≤ m) && decide (m < 60))
      | _, _ => false))
  | _ => false

/-! ## Theorems -/

theorem sanity_psi :
    parseScheduleInput ("daily at 9am") 0 = .ok ("daily", .str ("09:00")) ∧
    parseScheduleInput ("every monday at 10:30am") 0 =
      .ok ("weekly", .str ("monday 10:30")) ∧
    parseScheduleInput ("in 2 hours") 0 = .ok ("once", .isoDT (2 * usHour)) ∧
    parseScheduleInput ("every 30 minutes") 0 = .ok ("custom", .str ("30")) ∧
    parseScheduleInput ("hourly at :15") 0 = .ok ("hourly", .str ("15")) ∧
    parseScheduleInput ("every 2 hours") 0 = .ok ("custom", .str ("120")) ∧
    parseScheduleInput ("tomorrow at 3pm") 0 =
      .ok ("once", .isoDT (usDay + 15 * usHour)) ∧
    parseScheduleInput ("tomorrow") 0 = .ok ("once", .isoDT (usDay + 9 * usHour)) ∧
    parseScheduleInput ("Nothing Recognizable") 0 = .ok ("daily", .str ("09:00")) ∧
    parseScheduleInput ("daily at 99") 0 = .ok ("daily", .str ("99:00")) ∧
    parseScheduleInput ("tomorrow at 99") 0 = .error () ∧
    parseScheduleInput ("every day") 0 = .ok ("daily", .str ("09:00")) ∧
    parseScheduleInput ("daily at 12pm") 0 = .ok ("daily", .str ("12:00")) ∧
    parseScheduleInput ("daily at 12am") 0 = .ok ("daily", .str ("00:00")) := by decide

/-! ## Supporting lemmas: store operations -/

theorem lookupTask_replace_ne (l : List (String × ScheduledTask)) (id id' : String)
    (v : ScheduledTask) (h : id' ≠ id) :
    lookupTask (replaceTask l id' v) id = lookupTask l id := by
  induction l with
  | nil => rfl
  | cons p rest ih =>
    obtain ⟨k, w⟩ := p
    by_cases hk : k = id'
    · subst hk
      simp [replaceTask, lookupTask, h]
    · simp [replaceTask, lookupTask, hk, ih]

theorem lookupTask_replace_self (l : List (String × ScheduledTask)) (id : String)
    (v t0 : ScheduledTask) (h : lookupTask l id = some t0) :
    lookupTask (replaceTask l id v) id = some v := by
  induction l with
  | nil => simp [lookupTask] at h
  | cons p rest ih =>
    obtain ⟨k, w⟩ := p
    by_cases hk : k = id
    · subst hk
      simp [replaceTask, lookupTask]
    · simp [lookupTask, hk] at h
      simp [replaceTask, lookupTask, hk, ih h]

theorem mem_replaceTask (l : List (String × ScheduledTask)) (id : String)
    (v : ScheduledTask) (p : String × ScheduledTask) (h : p ∈ replaceTask l id v) :
    p ∈ l ∨ (p.1 = id ∧ p.2 = v) := by
  induction l with
  | nil => simp [replaceTask] at h
  | cons q rest ih =>
    obtain ⟨k, w⟩ := q
    by_cases hk : k = id
    · subst hk
      simp [replaceTask] at h
      rcases h with h | h
      · right
        simp [h]
      · left
        simp [h]
    · simp [replaceTask, hk] at h
      rcases h with h | h
      · left
        simp [h]
      · rcases ih h with h2 | h2
        · left
          simp [h2]
        · right
          exact h2

theorem replaceTask_length (l : List (String × ScheduledTask)) (id : String)
    (v : ScheduledTask) : (replaceTask l id v).length = l.length := by
  induction l with
  | nil => rfl
  | cons q rest ih =>
    obtain ⟨k, w⟩ := q
    by_cases hk : k = id <;> simp [replaceTask, hk, ih]

theorem replaceTask_key_unique (id : String) (v : ScheduledTask)
    (p : String × ScheduledTask) (hk : p.1 = id) :
    ∀ l : List (String × ScheduledTask), keysNodup l → p ∈ replaceTask l id v → p.2 = v := by
  intro l
  induction l with
  | nil =>
    intro _ hp
    simp [replaceTask] at hp
  | cons q rest ih =>
    obtain ⟨k, w⟩ := q
    intro hnd hp
    unfold keysNodup at hnd
    simp only [List.map_cons, List.nodup_cons] at hnd
    by_cases hkq : k = id
    · subst hkq
      simp only [replaceTask, if_pos rfl] at hp
      rcases List.mem_cons.mp hp with hp | hp
      · rw [hp]
      · exact absurd (hk ▸ List.mem_map_of_mem Prod.fst hp) hnd.1
    · simp only [replaceTask, if_neg hkq] at hp
      rcases List.mem_cons.mp hp with hp | hp
      · exact absurd (by rw [hp] at hk; exact hk) hkq
      · exact ih hnd.2 hp

theorem lookupTask_append_right (id : String) (v : ScheduledTask) :
    ∀ l, lookupTask l id = none → lookupTask (l ++ [(id, v)]) id = some v := by
  intro l
  induction l with
  | nil =>
    intro _
    simp [lookupTask]
  | cons q rest ih =>
    obtain ⟨k, w⟩ := q
    intro h
    rw [List.cons_append]
    unfold lookupTask at h ⊢
    by_cases hk : k = id
    · rw [if_pos hk] at h
      exact absurd h (by simp)
    · rw [if_neg hk] at h ⊢
      exact ih h

theorem lookupTask_store_self (l : List (String × ScheduledTask)) (id : String)
    (v : ScheduledTask) : lookupTask (storeTask l id v) id = some v := by
  unfold storeTask
  rcases h : lookupTask l id with _ | t0
  · simp only [h, Option.isSome_none, Bool.false_eq_true, if_false]
    exact lookupTask_append_right id v l h
  · simp only [h, Option.isSome_some, if_true]
    exact lookupTask_replace_self l id v t0 h

/-! ## Supporting lemmas: executor -/

theorem updateNextRun_task_id (t : ScheduledTask) (a b : Int) :
    (updateNextRun t a b).task_id = t.task_id := by
  by_cases h : t.frequency = "once" <;> simp [updateNextRun, h]

theorem updateNextRun_chat_id (t : ScheduledTask) (a b : Int) :
    (updateNextRun t a b).chat_id = t.chat_id := by
  by_cases h : t.frequency = "once" <;> simp [updateNextRun, h]

theorem updateNextRun_once_disabled (t : ScheduledTask) (a b : Int)
    (h : t.frequency = "once") : (updateNextRun t a b).enabled = false := by
  simp [updateNextRun, h]

theorem updateNextRun_not_once (t : ScheduledTask) (a b : Int)
    (h : ¬ t.frequency = "once") :
    (updateNextRun t a b).next_run =
      some (calculateNextRun t.frequency t.time_spec b) := by
  simp [updateNextRun, h]

theorem executeTaskBody_taskAfter (env : ExecEnv) (task : ScheduledTask) (b : BodyOut)
    (hb : executeTaskBody env task = .ok b) :
    b.taskAfter = updateNextRun task env.nowL env.nowN := by
  unfold executeTaskBody at hb
  rcases h0 : env.llm 0 with e | r0
  · simp [h0] at hb
  · simp only [h0] at hb
    rcases ht : toolLoop env 5 r0 0 1 with e | ⟨rf, iters, llmN, trace⟩
    · simp [ht] at hb
    · simp only [ht] at hb
      split at hb
      · simp only [Except.ok.injEq] at hb
        rw [← hb]
      · split at hb
        · simp only [Except.ok.injEq] at hb
          rw [← hb]
        · simp at hb

theorem executeTask_ok_shape (env : ExecEnv) (task : ScheduledTask) (st : SchedState)
    (b : BodyOut) (hb : executeTaskBody env task = .ok b) :
    executeTask env task st =
      (⟨replaceTask st.tasks task.task_id b.taskAfter,
        if env.saveOk then saveFile (replaceTask st.tasks task.task_id b.taskAfter)
        else st.file⟩,
       { errored := false, delivered := b.delivered, notifyChat := none,
         notifySendOk := none }) := by
  unfold executeTask
  rw [hb]

/-! ## C4 -/

/-- C4: if an exception is raised inside execute_task (LLM calls, tool
dispatch, text delivery or state update — in this embedding, any failing step
of the try body), execute_task catches it and returns normally, attempts a
best-effort error notification to the task's chat (`notifyChat`, whose own
outcome `notifySendOk` is swallowed either way), and leaves the task map, the
task's fields, and the persisted file exactly as they were before the run.
Totality of `executeTask` embeds the fact that nothing propagates to the
scheduler loop. -/
theorem c4_exception_containment (env : ExecEnv) (task : ScheduledTask) (st : SchedState)
    (h : executeTaskBody env task = .error ()) :
    executeTask env task st =
      (st, { errored := true, delivered := none, notifyChat := some task.chat_id,
             notifySendOk := some env.sendErr }) := by
  unfold executeTask
  rw [h]

/-- Witness for C4 at a concrete failing execution (first LLM call raises). -/
theorem c4_witness :
    executeTaskBody envFail task0 = .error () ∧
    executeTask envFail task0 st0 =
      (st0, { errored := true, delivered := none, notifyChat := some 5,
              notifySendOk := some true }) :=
  ⟨by decide, c4_exception_containment envFail task0 st0 (by decide)⟩

/-! ## C9 -/

theorem toolLoop_iters_le (env : ExecEnv) :
    ∀ (fuel : Nat) (r : LLMResponse) (ti li : Nat) out,
      toolLoop env fuel r ti li = .ok out → out.2.1 ≤ fuel := by
  intro fuel
  induction fuel with
  | zero =>
    intro r ti li out h
    unfold toolLoop at h
    simp only [Except.ok.injEq] at h
    rw [← h]
  | succ n ih =>
    intro r ti li out h
    unfold toolLoop at h
    split at h
    · rcases hl : env.llm li with e | r'
      · simp [hl] at h
      · simp only [hl] at h
        rcases ht : toolLoop env n r' (runTools env r.content ti).2 (li + 1) with e | ⟨rf, it, lf, trace⟩
        · simp [ht] at h
        · simp only [ht, Except.ok.injEq] at h
          rw [← h]
          exact Nat.succ_le_succ (ih r' _ _ _ ht)
    · simp only [Except.ok.injEq] at h
      rw [← h]
      exact Nat.zero_le (n + 1)

theorem toolLoop_spin (env : ExecEnv) (r : Nat → LLMResponse) :
    ∀ (fuel j ti : Nat),
      (∀ k, j ≤ k → k < j + fuel → (r k).stop_reason = "tool_use") →
      (∀ k, j < k → k ≤ j + fuel → env.llm k = .ok (r k)) →
      ∃ trace, toolLoop env fuel (r j) ti (j + 1) =
        .ok (r (j + fuel), fuel, j + 1 + fuel, trace) := by
  intro fuel
  induction fuel with
  | zero =>
    intro j ti _ _
    exact ⟨[], rfl⟩
  | succ n ih =>
    intro j ti hs hl
    have hsj : (r j).stop_reason = "tool_use" := hs j (Nat.le_refl j) (by omega)
    have hlj : env.llm (j + 1) = .ok (r (j + 1)) := hl (j + 1) (by omega) (by omega)
    obtain ⟨trace, htr⟩ := ih (j + 1) (runTools env (r j).content ti).2
      (fun k hk1 hk2 => hs k (by omega) (by omega))
      (fun k hk1 hk2 => hl k (by omega) (by omega))
    refine ⟨(runTools env (r j).content ti).1 ++ trace, ?_⟩
    unfold toolLoop
    rw [if_pos hsj]
    simp only [hlj]
    have harr : j + 1 + n = j + (n + 1) := by omega
    have harr2 : j + 1 + 1 + n = j + 1 + (n + 1) := by omega
    rw [harr, harr2] at htr
    simp only [htr]

/-- C9: the tool-use loop inside execute_task performs at most 5 iterations,
whatever the LLM returns; and when six consecutive tool-use responses arrive,
the loop exits silently after its 5 iterations and 6 messages.create calls,
whatever text the final (6th) response carries is extracted and — when
non-empty — delivered with the scheduled-task header, the run completes
normally, and no exception reaches the scheduler loop. -/
theorem c9_tool_loop_ceiling :
    (∀ (env : ExecEnv) (task : ScheduledTask) (b : BodyOut),
      executeTaskBody env task = .ok b → b.loopIters ≤ 5) ∧
    (∀ (env : ExecEnv) (task : ScheduledTask) (st : SchedState) (r : Nat → LLMResponse),
      (∀ k, k < 6 → env.llm k = .ok (r k)) →
      (∀ k, k < 6 → (r k).stop_reason = "tool_use") →
      env.sendMain = true →
      ∃ b, executeTaskBody env task = .ok b ∧ b.loopIters = 5 ∧ b.llmCalls = 6 ∧
        b.delivered = (if extractText (r 5).content = "" then none
                       else some (mkHeader task ++ extractText (r 5).content)) ∧
        (executeTask env task st).2.errored = false) := by
  constructor
  · intro env task b hb
    unfold executeTaskBody at hb
    rcases h0 : env.llm 0 with e | r0
    · simp [h0] at hb
    · simp only [h0] at hb
      rcases ht : toolLoop env 5 r0 0 1 with e | ⟨rf, iters, llmN, trace⟩
      · simp [ht] at hb
      · simp only [ht] at hb
        have hit : iters ≤ 5 := toolLoop_iters_le env 5 r0 0 1 _ ht
        split at hb
        · simp only [Except.ok.injEq] at hb
          rw [← hb]
          exact hit
        · split at hb
          · simp only [Except.ok.injEq] at hb
            rw [← hb]
            exact hit
          · simp at hb
  · intro env task st r hl hs hsend
    have h0 : env.llm 0 = .ok (r 0) := hl 0 (by omega)
    obtain ⟨trace, htr⟩ := toolLoop_spin env r 5 0 0
      (fun k hk1 hk2 => hs k (by omega))
      (fun k hk1 hk2 => hl k (by omega))
    have htr6 : toolLoop env 5 (r 0) 0 1 = .ok (r 5, 5, 6, trace) := by
      have e1 : (0 : Nat) + 5 = 5 := rfl
      have e2 : (0 : Nat) + 1 + 5 = 6 := rfl
      have e3 : (0 : Nat) + 1 = 1 := rfl
      rw [e1, e2, e3] at htr
      exact htr
    have hbody : executeTaskBody env task = .ok
        { taskAfter := updateNextRun task env.nowL env.nowN,
          delivered := if extractText (r 5).content = "" then none
                       else some (mkHeader task ++ extractText (r 5).content),
          loopIters := 5, llmCalls := 6, toolTrace := trace } := by
      unfold executeTaskBody
      simp only [h0, htr6]
      by_cases hm : extractText (r 5).content = ""
      · simp [hm]
      · simp [hm, hsend]
    refine ⟨_, hbody, rfl, rfl, rfl, ?_⟩
    unfold executeTask
    rw [hbody]

/-- Witness for C9: a concrete oracle answering tool_use forever still yields
a normal completion with exactly 5 loop iterations and 6 LLM calls. -/
theorem c9_witness :
    ∃ b, executeTaskBody envSpin task0 = .ok b ∧ b.loopIters = 5 ∧ b.llmCalls = 6 ∧
      b.delivered = (if extractText respTU.content = "" then none
                     else some (mkHeader task0 ++ extractText respTU.content)) ∧
      (executeTask envSpin task0 st0).2.errored = false :=
  (c9_tool_loop_ceiling.2 envSpin task0 st0 (fun _ => respTU)
    (fun _ _ => rfl) (fun _ _ => rfl) rfl)

theorem executeTask_lookup_ne (env : ExecEnv) (task : ScheduledTask) (st : SchedState)
    (id : String) (t : ScheduledTask) (hne : task.task_id ≠ id)
    (hl : lookupTask st.tasks id = some t) :
    lookupTask (executeTask env task st).1.tasks id = some t := by
  unfold executeTask
  rcases hb : executeTaskBody env task with e | b
  · exact hl
  · simp only
    rw [lookupTask_replace_ne st.tasks id task.task_id b.taskAfter hne]
    exact hl

theorem executeTask_goodFor (env : ExecEnv) (task : ScheduledTask) (st : SchedState)
    (id : String) (hne : task.task_id ≠ id) (hg : goodFor id st.tasks) :
    goodFor id (executeTask env task st).1.tasks := by
  unfold executeTask
  rcases hb : executeTaskBody env task with e | b
  · exact hg
  · simp only
    intro p hp
    rcases mem_replaceTask st.tasks task.task_id b.taskAfter p hp with h1 | h1
    · exact hg p h1
    · have hafter : b.taskAfter = updateNextRun task env.nowL env.nowN :=
        executeTaskBody_taskAfter env task b hb
      constructor
      · rw [h1.2, hafter, updateNextRun_task_id, h1.1]
      · intro hpid
        exact absurd (h1.1 ▸ hpid) hne

theorem scanTasks_preserve (envs : Nat → ExecEnv) (now : Int) (id : String)
    (t : ScheduledTask) :
    ∀ (l : List (String × ScheduledTask)) (st : SchedState) (k : Nat),
      goodFor id l → goodFor id st.tasks → lookupTask st.tasks id = some t →
      lookupTask (scanTasks envs now l st k).1.tasks id = some t ∧
      goodFor id (scanTasks envs now l st k).1.tasks := by
  intro l
  induction l with
  | nil =>
    intro st k _ hg hl
    exact ⟨hl, hg⟩
  | cons q rest ih =>
    obtain ⟨id0, task0⟩ := q
    intro st k hsnap hg hl
    have hsnap0 := hsnap (id0, task0) (List.mem_cons_self _ _)
    have hsnapRest : goodFor id rest := fun p hp => hsnap p (List.mem_cons_of_mem _ hp)
    unfold scanTasks
    by_cases he : task0.enabled = true
    · have hne : id0 ≠ id := by
        intro hh
        have h2 := hsnap0.2 hh
        rw [h2] at he
        exact absurd he (by simp)
      have hne' : task0.task_id ≠ id := by
        rw [hsnap0.1]
        exact hne
      rcases hpn : optParse task0.next_run with _ | tr
      · simp only [he, hpn, if_true]
        exact ih st k hsnapRest hg hl
      · by_cases hdue : now ≥ tr
        · simp only [he, hpn, if_true, hdue]
          have hl' := executeTask_lookup_ne (envs k) task0 st id t hne' hl
          have hg' := executeTask_goodFor (envs k) task0 st id hne' hg
          exact ih (executeTask (envs k) task0 st).1 (k + 1) hsnapRest hg' hl'
        · simp only [he, hpn, if_true, hdue, if_false]
          exact ih st k hsnapRest hg hl
    · simp only [he, if_false]
      exact ih st k hsnapRest hg hl

theorem scansN_preserve (id : String) (t : ScheduledTask) :
    ∀ (n : Nat) (st : SchedState) (nows : Nat → Int) (envss : Nat → Nat → ExecEnv),
      goodFor id st.tasks → lookupTask st.tasks id = some t →
      lookupTask (scansN n st nows envss).tasks id = some t := by
  intro n
  induction n with
  | zero =>
    intro st _ _ _ hl
    exact hl
  | succ m ih =>
    intro st nows envss hg hl
    unfold scansN scanOnce
    have h := scanTasks_preserve (envss m) (nows m) id t st.tasks st 0 hg hg hl
    exact ih _ nows envss h.2 h.1

/-! ## C1 -/

/-- C1 (amended): for a task with frequency "once", after its first
SUCCESSFUL run the enabled field is false and the task is never touched again
by any number of subsequent scheduler scans (the scan only considers enabled
tasks); a run that fails with a caught error, by contrast, leaves the task
unchanged — see the counterexample. -/
theorem c1_once_disabled_after_success (env : ExecEnv) (task : ScheduledTask)
    (st : SchedState) (hf : task.frequency = "once")
    (hok : (executeTaskBody env task).isOk = true)
    (hl : lookupTask st.tasks task.task_id = some task)
    (hkeys : ∀ p ∈ st.tasks, p.2.task_id = p.1)
    (hnd : keysNodup st.tasks) :
    ∃ t', lookupTask (executeTask env task st).1.tasks task.task_id = some t' ∧
      t'.enabled = false ∧
      ∀ (n : Nat) (nows : Nat → Int) (envss : Nat → Nat → ExecEnv),
        lookupTask (scansN n (executeTask env task st).1 nows envss).tasks task.task_id
          = some t' := by
  obtain ⟨b, hb⟩ : ∃ b, executeTaskBody env task = .ok b := by
    rcases hbb : executeTaskBody env task with e | b2
    · rw [hbb] at hok
      simp [Except.isOk, Except.toBool] at hok
    · exact ⟨b2, rfl⟩
  have hafter : b.taskAfter = updateNextRun task env.nowL env.nowN :=
    executeTaskBody_taskAfter env task b hb
  have henb : b.taskAfter.enabled = false := by
    rw [hafter]
    exact updateNextRun_once_disabled task _ _ hf
  have htid : b.taskAfter.task_id = task.task_id := by
    rw [hafter]
    exact updateNextRun_task_id task _ _
  have htasks : (executeTask env task st).1.tasks
      = replaceTask st.tasks task.task_id b.taskAfter := by
    rw [executeTask_ok_shape env task st b hb]
  have hlook : lookupTask (executeTask env task st).1.tasks task.task_id = some b.taskAfter := by
    rw [htasks]
    exact lookupTask_replace_self st.tasks task.task_id b.taskAfter task hl
  have hgood : goodFor task.task_id (executeTask env task st).1.tasks := by
    rw [htasks]
    intro p hp
    constructor
    · rcases mem_replaceTask st.tasks task.task_id b.taskAfter p hp with h1 | h1
      · exact hkeys p h1
      · rw [h1.2, htid, h1.1]
    · intro hpid
      rw [replaceTask_key_unique task.task_id b.taskAfter p hpid st.tasks hnd hp]
      exact henb
  refine ⟨b.taskAfter, hlook, henb, ?_⟩
  intro n nows envss
  exact scansN_preserve task.task_id b.taskAfter n (executeTask env task st).1 nows envss
    hgood hlook

/-- Witness for C1: a concrete once-task, a successful concrete run, and three
subsequent scans after which it is still present and disabled. -/
theorem c1_witness :
    task0.frequency = "once" ∧
    ∃ t', lookupTask (scansN 3 (executeTask envOk task0 st0).1 (fun _ => 2 * usDay)
        (fun _ _ => envOk)).tasks task0.task_id = some t' ∧ t'.enabled = false := by
  refine ⟨rfl, ?_⟩
  obtain ⟨t', _, h2, h3⟩ := c1_once_disabled_after_success envOk task0 st0 rfl
    (by decide) (by decide) (by decide) (by decide)
  exact ⟨t', h3 3 _ _, h2⟩

/-- C1 counterexample: a once-task whose first run fails with a caught error
(the LLM call raises) is left fully enabled — `enabled` does not become false
after a failed-but-completed run, contradicting the claim as stated. -/
theorem c1_counterexample :
    task0.frequency = "once" ∧
    (executeTask envFail task0 st0).1 = st0 ∧
    lookupTask (executeTask envFail task0 st0).1.tasks task0.task_id = some task0 ∧
    task0.enabled = true := by decide

/-! ## C10 -/

theorem scanTasks_executes_member (envs : Nat → ExecEnv) (now : Int) (id : String)
    (tk : ScheduledTask) (tr : Int) (he : tk.enabled = true)
    (hp : optParse tk.next_run = some tr) (hdue : now ≥ tr) :
    ∀ (l : List (String × ScheduledTask)) (st : SchedState) (k : Nat),
      lookupTask l id = some tk → id ∈ (scanTasks envs now l st k).2 := by
  intro l
  induction l with
  | nil =>
    intro st k hl
    simp [lookupTask] at hl
  | cons q rest ih =>
    obtain ⟨id0, task0⟩ := q
    intro st k hl
    unfold scanTasks
    by_cases hid : id0 = id
    · subst hid
      unfold lookupTask at hl
      rw [if_pos rfl] at hl
      have htk : task0 = tk := by
        injection hl
      subst htk
      simp only [he, hp, if_true, hdue]
      exact List.mem_cons_self _ _
    · unfold lookupTask at hl
      rw [if_neg hid] at hl
      by_cases he0 : task0.enabled = true
      · rcases hp0 : optParse task0.next_run with _ | tr0
        · simp only [he0, hp0, if_true]
          exact ih st k hl
        · by_cases hd0 : now ≥ tr0
          · simp only [he0, hp0, if_true, hd0]
            exact List.mem_cons_of_mem _ (ih _ _ hl)
          · simp only [he0, hp0, if_true, hd0, if_false]
            exact ih st k hl
      · simp only [he0, if_false]
        exact ih st k hl

/-- C10: toggle_task flips the enabled flag of any existing task
unconditionally — whatever its frequency or run history — persists, and
returns the new status; in particular a disabled once-task is re-enabled
(returning true), and since its stored next_run is in the past it is executed
again on the very next scheduler scan. The once-task's disabled state is
permanent only against scans, not against the public toggle operation. -/
theorem c10_toggle_reenables (st : SchedState) (id : String) (tk : ScheduledTask)
    (now : Int) (envs : Nat → ExecEnv) (hl : lookupTask st.tasks id = some tk) :
    (toggleTask st id).2 = some (!tk.enabled) ∧
    lookupTask (toggleTask st id).1.tasks id = some { tk with enabled := !tk.enabled } ∧
    (tk.enabled = false → ∀ ts tr, tk.next_run = some ts → TStr.parse ts = some tr →
      now ≥ tr → id ∈ (scanOnce (toggleTask st id).1 now envs).2) := by
  have hshape : toggleTask st id =
      (⟨replaceTask st.tasks id { tk with enabled := !tk.enabled },
        saveFile (replaceTask st.tasks id { tk with enabled := !tk.enabled })⟩,
       some (!tk.enabled)) := by
    unfold toggleTask
    rw [hl]
  refine ⟨by rw [hshape], ?_, ?_⟩
  · rw [hshape]
    exact lookupTask_replace_self st.tasks id _ tk hl
  · intro hdis ts tr hts htr hdue
    unfold scanOnce
    apply scanTasks_executes_member envs now id { tk with enabled := !tk.enabled } tr
      (by simp [hdis]) (by simp [optParse, hts, htr]) hdue
    rw [hshape]
    exact lookupTask_replace_self st.tasks id _ tk hl

/-- Witness for C10: toggling the concrete disabled once-task returns true and
the next scan (one day later than its stored past next_run) executes it. -/
theorem c10_witness :
    (toggleTask st0d ("task_1_20240101000000")).2 = some true ∧
    "task_1_20240101000000" ∈
      (scanOnce (toggleTask st0d ("task_1_20240101000000")).1 usDay (fun _ => envOk)).2 := by
  obtain ⟨h1, _, h3⟩ := c10_toggle_reenables st0d ("task_1_20240101000000") task0d usDay
    (fun _ => envOk) (by decide)
  refine ⟨h1, ?_⟩
  exact h3 (by decide) (.raw ("2024-01-01T00:00:00")) 0 (by decide) (by decide) (by decide)

/-! ## Supporting lemmas: recurrence arithmetic -/

theorem calcNR_once (spec : String) (now : Int) :
    calculateNextRun ("once") spec now = .raw spec := rfl

theorem calcNR_daily (spec : String) (now : Int) :
    calculateNextRun ("daily") spec now =
      (match hmOfSpec spec.data with
       | some (h, m) =>
         if 0 ≤ h && h < 24 && 0 ≤ m && m < 60 then
           .iso (if replaceHM now h m ≤ now then replaceHM now h m + usDay
                 else replaceHM now h m)
         else .iso (now + usDay)
       | none => .iso (now + usDay)) := rfl

theorem calcNR_weekly (spec : String) (now : Int) :
    calculateNextRun ("weekly") spec now =
      (match weeklyCalc spec now with
       | some t => .iso t
       | none => .iso (now + usWeek)) := rfl

theorem calcNR_hourly (spec : String) (now : Int) :
    calculateNextRun ("hourly") spec now =
      (match pyIntL spec.data with
       | some m =>
         if 0 ≤ m && m < 60 then
           .iso (if replaceMin now m ≤ now then replaceMin now m + usHour
                 else replaceMin now m)
         else .iso (now + usHour)
       | none => .iso (now + usHour)) := rfl

theorem calcNR_custom (spec : String) (now : Int) :
    calculateNextRun ("custom") spec now =
      (match pyIntL spec.data with
       | some interval => .iso (now + interval * usMin)
       | none => .iso (now + usHour)) := rfl

theorem dayNameLookup_range (p : List Char) (d : Int) (h : dayNameLookup p = some d) :
    0 ≤ d ∧ d < 7 := by
  unfold dayNameLookup at h
  split_ifs at h <;> simp_all <;> omega

/-- Core arithmetic of the weekly branch: under the roll-forward rule the
computed instant lands on the requested weekday at the requested time, is
strictly in the future, and lies at most one week after `now`. -/
theorem weekly_core (now target h m da : Int)
    (ht0 : 0 ≤ target) (ht7 : target < 7)
    (hh0 : 0 ≤ h) (hh : h < 24) (hm0 : 0 ≤ m) (hm : m < 60)
    (hda : (da = target - weekdayOf now ∧
             (0 < target - weekdayOf now ∨
              (target - weekdayOf now = 0 ∧
               hourOf now * 60 + minuteOf now < h * 60 + m)))
         ∨ (da = target - weekdayOf now + 7 ∧
             (target - weekdayOf now < 0 ∨
              (target - weekdayOf now = 0 ∧
               h * 60 + m ≤ hourOf now * 60 + minuteOf now)))) :
    weekdayOf (replaceHM (now + da * usDay) h m) = target ∧
    hourOf (replaceHM (now + da * usDay) h m) = h ∧
    minuteOf (replaceHM (now + da * usDay) h m) = m ∧
    replaceHM (now + da * usDay) h m % usMin = 0 ∧
    now < replaceHM (now + da * usDay) h m ∧
    replaceHM (now + da * usDay) h m ≤ now + usWeek := by
  unfold weekdayOf hourOf minuteOf replaceHM dayIndex timeOfDay usDay usHour usMin usWeek at *
  rcases hda with ⟨hd, hcase⟩ | ⟨hd, hcase⟩ <;> subst hd <;>
    rcases hcase with hcase | ⟨hc1, hc2⟩ <;> omega

theorem weeklyCalc_future (spec : String) (now : Int)
    (htame : ∀ d, (match splitWs (lowerL spec.data) with
                   | p0 :: _ :: _ => dayField p0
                   | _ => none) = some d → 0 ≤ d ∧ d < 7) :
    ∀ t, weeklyCalc spec now = some t → now < t := by
  intro t h
  unfold weeklyCalc at h
  rcases hsp : splitWs (lowerL spec.data) with _ | ⟨p0, rest⟩
  · simp only [hsp] at h
    exact absurd h (by simp)
  · rcases rest with _ | ⟨p1, rest2⟩
    · simp only [hsp] at h
      exact absurd h (by simp)
    · simp only [hsp] at h htame
      rcases hdf : dayField p0 with _ | target
      · simp only [hdf] at h
        exact absurd h (by simp)
      · simp only [hdf] at h htame
        obtain ⟨ht0, ht7⟩ := htame target rfl
        rcases hhm : hmOfSpec p1 with _ | ⟨hh, mm⟩
        · simp only [hhm] at h
          exact absurd h (by simp)
        · simp only [hhm] at h
          split at h
          case isTrue hv =>
            simp only [Bool.and_eq_true, decide_eq_true_eq] at hv
            obtain ⟨⟨⟨hv1, hv2⟩, hv3⟩, hv4⟩ := hv
            split at h
            case isTrue hc =>
              simp only [Bool.or_eq_true, Bool.and_eq_true, decide_eq_true_eq] at hc
              injection h with h
              rw [← h]
              exact (weekly_core now target hh mm _ ht0 ht7 hv1 hv2 hv3 hv4
                (Or.inr ⟨rfl, by omega⟩)).2.2.2.2.1
            case isFalse hc =>
              simp only [Bool.or_eq_true, Bool.and_eq_true, decide_eq_true_eq, not_or,
                not_and] at hc
              injection h with h
              rw [← h]
              exact (weekly_core now target hh mm _ ht0 ht7 hv1 hv2 hv3 hv4
                (Or.inl ⟨rfl, by omega⟩)).2.2.2.2.1
          case isFalse hv =>
            exact absurd h (by simp)

theorem calculateNextRun_future (frequency time_spec : String) (now : Int)
    (hf : tameRecurrence frequency time_spec) :
    ∃ ta, calculateNextRun frequency time_spec now = .iso ta ∧ now < ta := by
  rcases hf with hf | hf | ⟨hf, ht⟩ | ⟨hf, ht⟩ <;> subst hf
  · rw [calcNR_daily]
    rcases hhm : hmOfSpec time_spec.data with _ | ⟨h, m⟩ <;> simp only [hhm]
    · refine ⟨now + usDay, rfl, ?_⟩
      unfold usDay
      omega
    · split
      case isTrue hv =>
        simp only [Bool.and_eq_true, decide_eq_true_eq] at hv
        refine ⟨_, rfl, ?_⟩
        unfold replaceHM dayIndex usDay usHour usMin
        split <;> omega
      case isFalse =>
        refine ⟨now + usDay, rfl, ?_⟩
        unfold usDay
        omega
  · rw [calcNR_hourly]
    rcases hpm : pyIntL time_spec.data with _ | m <;> simp only [hpm]
    · refine ⟨now + usHour, rfl, ?_⟩
      unfold usHour
      omega
    · split
      case isTrue hv =>
        simp only [Bool.and_eq_true, decide_eq_true_eq] at hv
        refine ⟨_, rfl, ?_⟩
        unfold replaceMin usHour usMin
        split <;> omega
      case isFalse =>
        refine ⟨now + usHour, rfl, ?_⟩
        unfold usHour
        omega
  · rw [calcNR_weekly]
    rcases hw : weeklyCalc time_spec now with _ | t <;> simp only [hw]
    · refine ⟨now + usWeek, rfl, ?_⟩
      unfold usWeek
      omega
    · exact ⟨t, rfl, weeklyCalc_future time_spec now ht t hw⟩
  · rw [calcNR_custom]
    rcases hpm : pyIntL time_spec.data with _ | k <;> simp only [hpm]
    · refine ⟨now + usHour, rfl, ?_⟩
      unfold usHour
      omega
    · refine ⟨now + k * usMin, rfl, ?_⟩
      have hk := ht k hpm
      unfold usMin
      omega

/-! ## C3 -/

/-- C3 (amended): for an enabled task with frequency daily or hourly (any
time_spec), weekly (unless the day field parses to an integer outside 0..6),
or custom with a parsed interval of at least one minute (or an unparsable
spec, which falls back an hour ahead), executing because its stored next_run
tb satisfied tb ≤ now makes the recomputed next_run strictly greater than tb.
A custom task whose integer interval is zero or negative violates the
original claim — see the counterexample. -/
theorem c3_next_run_strictly_increases (t : ScheduledTask) (tb nowL nowN : Int)
    (hfreq : tameRecurrence t.frequency t.time_spec)
    (_hnr : optParse t.next_run = some tb) (htrig : tb ≤ nowN) :
    ∃ ta, (updateNextRun t nowL nowN).next_run = some (.iso ta) ∧ tb < ta := by
  have hnotonce : ¬ t.frequency = "once" := by
    rcases hfreq with h | h | ⟨h, _⟩ | ⟨h, _⟩ <;> rw [h] <;> decide
  rw [updateNextRun_not_once t nowL nowN hnotonce]
  obtain ⟨ta, hca, hlt⟩ := calculateNextRun_future t.frequency t.time_spec nowN hfreq
  exact ⟨ta, by rw [hca], by omega⟩

/-- Witness for C3 at a concrete daily task triggered at its stored
next_run. -/
theorem c3_witness :
    ∃ ta, (updateNextRun taskDaily 0 0).next_run = some (.iso ta) ∧ 0 < ta :=
  c3_next_run_strictly_increases taskDaily 0 0 0 (Or.inl (by decide)) (by decide)
    (by decide)

/-- C3 counterexample: a custom task with interval "0" minutes, due because
its stored next_run 0 satisfies next_run ≤ now = 0, recomputes next_run to
exactly the same instant — not strictly greater, so it re-fires on every
scan. -/
theorem c3_counterexample :
    taskC3.frequency = "custom" ∧ optParse taskC3.next_run = some 0 ∧
    ((0 : Int) ≤ 0) ∧ (updateNextRun taskC3 0 0).next_run = some (.iso 0) := by decide

/-- C5: for every well-formed weekly time_spec and every now, the computed
next_run falls exactly on the requested weekday (0 = Monday) at the requested
hour and minute with zero seconds, and is at most 7 days after now. -/
theorem c5_weekly_exact (spec : String) (now target h m : Int)
    (hwf : weeklyWF spec target h m) :
    ∃ t, calculateNextRun ("weekly") spec now = .iso t ∧
      weekdayOf t = target ∧ hourOf t = h ∧ minuteOf t = m ∧ t % usMin = 0 ∧
      t ≤ now + usWeek := by
  obtain ⟨p0, p1, hsp, hdf, ht0, ht7, hhm, hh0, hh, hm0, hm⟩ := hwf
  have hcalc : ∀ u, weeklyCalc spec now = some u →
      calculateNextRun ("weekly") spec now = .iso u := by
    intro u hu
    rw [calcNR_weekly]
    simp only [hu]
  have hvb : (decide (0 ≤ h) && decide (h < 24) && decide (0 ≤ m) && decide (m < 60)) = true := by
    simp [hh0, hh, hm0, hm]
  have hw : weeklyCalc spec now =
      some (replaceHM
        (now + (if target - weekdayOf now < 0 ||
                  (target - weekdayOf now = 0 &&
                   hourOf now * 60 + minuteOf now ≥ h * 60 + m)
                then target - weekdayOf now + 7
                else target - weekdayOf now) * usDay) h m) := by
    unfold weeklyCalc
    simp only [hsp, hdf, hhm, hvb, if_true]
  by_cases hc : (target - weekdayOf now < 0 ||
      (target - weekdayOf now = 0 && hourOf now * 60 + minuteOf now ≥ h * 60 + m)) = true
  · rw [if_pos hc] at hw
    simp only [Bool.or_eq_true, Bool.and_eq_true, decide_eq_true_eq] at hc
    have hcore := weekly_core now target h m (target - weekdayOf now + 7)
      ht0 ht7 hh0 hh hm0 hm (Or.inr ⟨rfl, by omega⟩)
    exact ⟨_, hcalc _ hw, hcore.1, hcore.2.1, hcore.2.2.1, hcore.2.2.2.1, hcore.2.2.2.2.2⟩
  · rw [if_neg (by simpa using (Bool.not_eq_true _).mp hc)] at hw
    simp only [Bool.or_eq_true, Bool.and_eq_true, decide_eq_true_eq, not_or, not_and] at hc
    have hcore := weekly_core now target h m (target - weekdayOf now)
      ht0 ht7 hh0 hh hm0 hm (Or.inl ⟨rfl, by omega⟩)
    exact ⟨_, hcalc _ hw, hcore.1, hcore.2.1, hcore.2.2.1, hcore.2.2.2.1, hcore.2.2.2.2.2⟩

/-- Witness for C5: "monday 10:30" one hour into a Tuesday lands the following
Monday at 10:30:00 exactly, six days later. -/
theorem c5_witness :
    weeklyWF ("monday 10:30") 0 10 30 ∧
    ∃ t, calculateNextRun ("weekly") ("monday 10:30") (usDay + usHour) = .iso t ∧
      weekdayOf t = 0 ∧ hourOf t = 10 ∧ minuteOf t = 30 ∧ t % usMin = 0 ∧
      t ≤ usDay + usHour + usWeek :=
  ⟨⟨("monday").data, ("10:30").data, by decide, by decide, by decide, by decide,
    by decide, by decide, by decide, by decide, by decide⟩,
   c5_weekly_exact ("monday 10:30") (usDay + usHour) 0 10 30
    ⟨("monday").data, ("10:30").data, by decide, by decide, by decide, by decide,
     by decide, by decide, by decide, by decide, by decide⟩⟩

/-- C2 (evaluating the code at the failing input): for frequency "once" the
`_calculate_next_run` branch returns `time_spec` verbatim — its `try/except`
is dead code, since returning a string cannot raise — so constructing a once
task with the malformed spec "garbage" stores next_run = "garbage" (not a
valid ISO-8601 timestamp and with no fallback to a future instant), and the
scheduler loop's `fromisoformat` then fails on every scan. -/
theorem c2_once_next_run_not_iso :
    calculateNextRun ("once") ("garbage") 0 = .raw ("garbage") ∧
    (postInit taskOnceGarbage 0 0).next_run = some (.raw ("garbage")) ∧
    TStr.parse (.raw ("garbage")) = none ∧
    optParse (postInit taskOnceGarbage 0 0).next_run = none := by decide

theorem setNextRun_self (t : ScheduledTask) (v : Option TStr) (h : t.next_run = v) :
    { t with next_run := v } = t := by
  cases t
  subst h
  rfl

theorem postInit_fixed (t : ScheduledTask) (h : taskWF t) (n1 n2 : Int) :
    postInit t n1 n2 = t := by
  obtain ⟨hca, hnr, hfb⟩ := h
  unfold postInit
  rw [if_neg (by simp [hca])]
  by_cases hof : optFalsy t.next_run = true
  · rw [if_pos hof]
    obtain ⟨hfreq, hspec⟩ := hfb hof
    have hnr2 : t.next_run = some (.raw ("")) := by
      rcases hx : t.next_run with _ | s
      · exact absurd hx hnr
      · rcases s with ts | str
        · rw [hx] at hof
          simp [optFalsy, TStr.falsy] at hof
        · rw [hx] at hof
          simp only [optFalsy, TStr.falsy, decide_eq_true_eq] at hof
          rw [hof]
    have hcalc : calculateNextRun t.frequency t.time_spec n2 = .raw ("") := by
      rw [hfreq, hspec]
      exact calcNR_once ("") n2
    rw [hcalc]
    exact setNextRun_self t _ hnr2
  · rw [if_neg hof]

theorem loadFile_fixed (n1 n2 : Int) :
    ∀ tasks : List (String × ScheduledTask), (∀ p ∈ tasks, taskWF p.2) →
      loadFile tasks n1 n2 = tasks := by
  intro tasks
  induction tasks with
  | nil =>
    intro _
    rfl
  | cons q rest ih =>
    intro h
    unfold loadFile
    simp only [List.map_cons]
    rw [postInit_fixed q.2 (h q (List.mem_cons_self _ _)) n1 n2]
    have hr := ih (fun p hp => h p (List.mem_cons_of_mem _ hp))
    unfold loadFile at hr
    rw [hr]

/-- C7: for every in-memory task map (i.e. every map whose tasks satisfy the
construction invariant `taskWF`), saving to the JSON file and reloading — at
any later wall-clock times — reproduces an identical task set:
save(load(save(T))) = save(T). -/
theorem c7_roundtrip (tasks : List (String × ScheduledTask)) (n1 n2 : Int)
    (h : ∀ p ∈ tasks, taskWF p.2) :
    saveFile (loadFile (saveFile tasks) n1 n2) = saveFile tasks := by
  unfold saveFile
  exact loadFile_fixed n1 n2 tasks h

/-- Witness for C7 on the concrete one-task store. -/
theorem c7_witness :
    (∀ p ∈ st0.tasks, taskWF p.2) ∧
    saveFile (loadFile (saveFile st0.tasks) usDay usDay) = saveFile st0.tasks :=
  ⟨by decide, c7_roundtrip st0.tasks usDay usDay (by decide)⟩

/-! ## C8 -/

theorem postInit_task_id (t : ScheduledTask) (n1 n2 : Int) :
    (postInit t n1 n2).task_id = t.task_id := by
  unfold postInit
  split_ifs <;> rfl

theorem addTask_task_id (st : SchedState) (u c : Int) (p f s : String) (b : Bool)
    (d : String) (nI nC nN : Int) :
    (addTask st u c p f s b d nI nC nN).2.task_id = mkTaskId u nI := by
  unfold addTask
  rw [postInit_task_id]

theorem addTask_tasks (st : SchedState) (u c : Int) (p f s : String) (b : Bool)
    (d : String) (nI nC nN : Int) :
    (addTask st u c p f s b d nI nC nN).1.tasks =
      storeTask st.tasks (mkTaskId u nI) (addTask st u c p f s b d nI nC nN).2 := rfl

/-- C8 (amended): the task id is derived from the user id and the creation
time formatted at second resolution, so two add_task calls by the same user
whose creation instants fall in the same wall-clock second produce the
identical id, and the second add silently overwrites the first entry in the
map: the map size does not grow and the id now maps to the second task. -/
theorem c8_same_second_overwrites (st : SchedState) (u c1 c2 : Int)
    (p1 p2 f1 s1 f2 s2 d1 d2 : String) (b1 b2 : Bool)
    (nI1 nC1 nN1 nI2 nC2 nN2 : Int)
    (hsec : secondsFloor nI1 = secondsFloor nI2) :
    (addTask st u c1 p1 f1 s1 b1 d1 nI1 nC1 nN1).2.task_id =
      (addTask (addTask st u c1 p1 f1 s1 b1 d1 nI1 nC1 nN1).1
        u c2 p2 f2 s2 b2 d2 nI2 nC2 nN2).2.task_id ∧
    (addTask (addTask st u c1 p1 f1 s1 b1 d1 nI1 nC1 nN1).1
        u c2 p2 f2 s2 b2 d2 nI2 nC2 nN2).1.tasks.length =
      (addTask st u c1 p1 f1 s1 b1 d1 nI1 nC1 nN1).1.tasks.length ∧
    lookupTask (addTask (addTask st u c1 p1 f1 s1 b1 d1 nI1 nC1 nN1).1
        u c2 p2 f2 s2 b2 d2 nI2 nC2 nN2).1.tasks
        (addTask st u c1 p1 f1 s1 b1 d1 nI1 nC1 nN1).2.task_id =
      some (addTask (addTask st u c1 p1 f1 s1 b1 d1 nI1 nC1 nN1).1
        u c2 p2 f2 s2 b2 d2 nI2 nC2 nN2).2 := by
  have hid : mkTaskId u nI2 = mkTaskId u nI1 := by
    unfold mkTaskId fmtStamp
    rw [hsec]
  have hlook1 : lookupTask (addTask st u c1 p1 f1 s1 b1 d1 nI1 nC1 nN1).1.tasks
      (mkTaskId u nI1) = some (addTask st u c1 p1 f1 s1 b1 d1 nI1 nC1 nN1).2 := by
    rw [addTask_tasks]
    exact lookupTask_store_self st.tasks (mkTaskId u nI1) _
  have hstore2 : (addTask (addTask st u c1 p1 f1 s1 b1 d1 nI1 nC1 nN1).1
      u c2 p2 f2 s2 b2 d2 nI2 nC2 nN2).1.tasks =
      replaceTask (addTask st u c1 p1 f1 s1 b1 d1 nI1 nC1 nN1).1.tasks
        (mkTaskId u nI1)
        (addTask (addTask st u c1 p1 f1 s1 b1 d1 nI1 nC1 nN1).1
          u c2 p2 f2 s2 b2 d2 nI2 nC2 nN2).2 := by
    rw [addTask_tasks, hid]
    unfold storeTask
    simp only [hlook1, Option.isSome_some, if_true]
  refine ⟨?_, ?_, ?_⟩
  · rw [addTask_task_id, addTask_task_id, hid]
  · rw [hstore2]
    exact replaceTask_length _ _ _
  · rw [hstore2, addTask_task_id]
    exact lookupTask_replace_self _ _ _ _ hlook1

/-- Witness for C8: two adds by user 3 within the same second (creation
instants 0 and 500000 microseconds). -/
theorem c8_witness :
    secondsFloor 0 = secondsFloor 500000 ∧
    ((addTask ⟨[], []⟩ 3 3 ("p1") ("daily") ("09:00") true ("") 0 0 0).2.task_id =
      (addTask (addTask ⟨[], []⟩ 3 3 ("p1") ("daily") ("09:00") true ("") 0 0 0).1
        3 4 ("p2") ("hourly") ("30") false ("x") 500000 500000 500000).2.task_id ∧
     (addTask (addTask ⟨[], []⟩ 3 3 ("p1") ("daily") ("09:00") true ("") 0 0 0).1
        3 4 ("p2") ("hourly") ("30") false ("x") 500000 500000 500000).1.tasks.length =
      (addTask ⟨[], []⟩ 3 3 ("p1") ("daily") ("09:00") true ("") 0 0 0).1.tasks.length ∧
     lookupTask (addTask (addTask ⟨[], []⟩ 3 3 ("p1") ("daily") ("09:00") true ("") 0 0 0).1
        3 4 ("p2") ("hourly") ("30") false ("x") 500000 500000 500000).1.tasks
        (addTask ⟨[], []⟩ 3 3 ("p1") ("daily") ("09:00") true ("") 0 0 0).2.task_id =
      some (addTask (addTask ⟨[], []⟩ 3 3 ("p1") ("daily") ("09:00") true ("") 0 0 0).1
        3 4 ("p2") ("hourly") ("30") false ("x") 500000 500000 500000).2) :=
  ⟨by decide,
   c8_same_second_overwrites ⟨[], []⟩ 3 3 4 ("p1") ("p2") ("daily") ("09:00")
     ("hourly") ("30") ("") ("x") true false 0 0 0 500000 500000 500000 (by decide)⟩

/-- C8 counterexample: two consecutive adds by the same user within one
wall-clock second (creation instants 0 and half a second later) produce the
same id; the map holds a single task and it is the second one — the first add
was silently overwritten, refuting id distinctness as claimed. -/
theorem c8_counterexample :
    (addTask ⟨[], []⟩ 1 1 ("first prompt") ("daily") ("09:00") true ("") 0 0 0).2.task_id =
      (addTask (addTask ⟨[], []⟩ 1 1 ("first prompt") ("daily") ("09:00") true ("") 0 0 0).1
        1 1 ("second prompt") ("daily") ("09:00") true ("") 500000 500000 500000).2.task_id ∧
    (addTask (addTask ⟨[], []⟩ 1 1 ("first prompt") ("daily") ("09:00") true ("") 0 0 0).1
        1 1 ("second prompt") ("daily") ("09:00") true ("") 500000 500000 500000).1.tasks.length = 1 ∧
    (lookupTask (addTask (addTask ⟨[], []⟩ 1 1 ("first prompt") ("daily") ("09:00") true ("") 0 0 0).1
        1 1 ("second prompt") ("daily") ("09:00") true ("") 500000 500000 500000).1.tasks
        (addTask ⟨[], []⟩ 1 1 ("first prompt") ("daily") ("09:00") true ("") 0 0 0).2.task_id).map
      (fun t => t.prompt) = some ("second prompt") := by decide

theorem digitCh_digit (k : Nat) (hk : k < 10) : isDigitCh (digitCh k) = true := by
  interval_cases k <;> decide

theorem natDecAux_digits : ∀ fuel n : Nat, (natDecAux fuel n).all isDigitCh = true := by
  intro fuel
  induction fuel with
  | zero =>
    intro n
    rfl
  | succ f ih =>
    intro n
    unfold natDecAux
    split
    case isTrue h => simp [digitCh_digit n h]
    case isFalse h =>
      simp [List.all_append, ih (n / 10), digitCh_digit (n % 10) (by omega)]

theorem natDecL_digits (n : Nat) : (natDecL n).all isDigitCh = true :=
  natDecAux_digits (n + 1) n

theorem natDecL_ne_nil (n : Nat) : natDecL n ≠ [] := by
  unfold natDecL natDecAux
  split
  · simp
  · simp

theorem replicate_digits (k : Nat) : (List.replicate k '0').all isDigitCh = true := by
  induction k with
  | zero => rfl
  | succ i ih => simp [List.replicate, ih, show isDigitCh '0' = true from by decide]

theorem pad2_digits (n : Nat) : (pad2 n).all isDigitCh = true := by
  unfold pad2 padZero
  simp [List.all_append, replicate_digits, natDecL_digits,
    show isDigitCh '0' = true from by decide]

theorem pad2_ne_nil (n : Nat) : pad2 n ≠ [] := by
  unfold pad2 padZero
  intro h
  rcases List.append_eq_nil.mp h with ⟨_, h2⟩
  exact natDecL_ne_nil n h2

theorem pad2_isEmpty (n : Nat) : (pad2 n).isEmpty = false := by
  rcases hx : pad2 n with _ | ⟨c, cs⟩
  · exact absurd hx (pad2_ne_nil n)
  · rfl

theorem digit_bne (c s : Char) (hc : isDigitCh c = true) (hs : isDigitCh s = false) :
    (c != s) = true := by
  rcases hb : c == s with _ | _
  · simp [bne, hb]
  · have he : c = s := eq_of_beq hb
    rw [he] at hc
    rw [hc] at hs
    exact absurd hs (by simp)

theorem all_digits_bne (s : Char) (hs : isDigitCh s = false) :
    ∀ l : List Char, l.all isDigitCh = true → l.all (· != s) = true := by
  intro l
  induction l with
  | nil =>
    intro _
    rfl
  | cons c cs ih =>
    intro h
    simp only [List.all_cons, Bool.and_eq_true] at h ⊢
    exact ⟨digit_bne c s h.1 hs, ih h.2⟩

theorem digit_not_ws (c : Char) (hc : isDigitCh c = true) : isWsCh c = false := by
  rcases hw : isWsCh c with _ | _
  · rfl
  · exfalso
    simp only [isWsCh, Bool.or_eq_true, decide_eq_true_eq] at hw
    rcases hw with ((((h | h) | h) | h) | h) | h <;> subst h <;>
      exact absurd hc (by decide)

theorem all_digits_not_ws :
    ∀ l : List Char, l.all isDigitCh = true → l.all (fun c => !isWsCh c) = true := by
  intro l
  induction l with
  | nil =>
    intro _
    rfl
  | cons c cs ih =>
    intro h
    simp only [List.all_cons, Bool.and_eq_true] at h ⊢
    exact ⟨by simp [digit_not_ws c h.1], ih h.2⟩

theorem splitOnCh_no_sep (sep : Char) :
    ∀ l : List Char, l.all (· != sep) = true → splitOnCh sep l = [l] := by
  intro l
  induction l with
  | nil =>
    intro _
    rfl
  | cons c cs ih =>
    intro h
    simp only [List.all_cons, Bool.and_eq_true] at h
    have hne : ¬(c = sep) := by
      intro he
      rw [he] at h
      simp at h
    unfold splitOnCh
    rw [if_neg hne]
    simp only [ih h.2]

theorem splitOnCh_cons (sep c : Char) (cs : List Char) :
    splitOnCh sep (c :: cs) =
      if c = sep then [] :: splitOnCh sep cs
      else
        match splitOnCh sep cs with
        | [] => [[c]]
        | p :: ps => (c :: p) :: ps := rfl

theorem splitOnCh_append (sep : Char) :
    ∀ xs ys : List Char, xs.all (· != sep) = true →
      splitOnCh sep (xs ++ sep :: ys) = xs :: splitOnCh sep ys := by
  intro xs
  induction xs with
  | nil =>
    intro ys _
    rw [List.nil_append, splitOnCh_cons, if_pos rfl]
  | cons c cs ih =>
    intro ys h
    simp only [List.all_cons, Bool.and_eq_true] at h
    have hne : ¬(c = sep) := by
      intro he
      rw [he] at h
      simp at h
    simp only [List.cons_append]
    rw [splitOnCh_cons, if_neg hne, ih ys h.2]

theorem hmShape_fmtHM (h m : Nat) : hmShapeL (fmtHM h m).data = true := by
  unfold hmShapeL fmtHM
  rw [show (String.mk (pad2 h ++ ':' :: pad2 m)).data = pad2 h ++ ':' :: pad2 m from rfl]
  rw [splitOnCh_append ':' (pad2 h) (pad2 m) (all_digits_bne ':' (by decide) _ (pad2_digits h))]
  rw [splitOnCh_no_sep ':' (pad2 m) (all_digits_bne ':' (by decide) _ (pad2_digits m))]
  simp [allDigits, pad2_digits, pad2_isEmpty]

theorem splitWsAux_nil (acc : List Char) :
    splitWsAux [] acc = if acc = [] then [] else [acc.reverse] := rfl

theorem splitWsAux_cons (c : Char) (cs acc : List Char) :
    splitWsAux (c :: cs) acc =
      if isWsCh c then
        (if acc = [] then splitWsAux cs [] else acc.reverse :: splitWsAux cs [])
      else splitWsAux cs (c :: acc) := rfl

theorem splitWsAux_nows (l : List Char) :
    ∀ (xs acc : List Char), xs.all (fun c => !isWsCh c) = true →
      splitWsAux (xs ++ l) acc = splitWsAux l (xs.reverse ++ acc) := by
  intro xs
  induction xs with
  | nil =>
    intro acc _
    simp
  | cons c cs ih =>
    intro acc h
    simp only [List.all_cons, Bool.and_eq_true, Bool.not_eq_eq_eq_not, Bool.not_true] at h
    simp only [List.cons_append]
    rw [splitWsAux_cons]
    rw [if_neg (by simp [h.1])]
    rw [ih (c :: acc) (by simpa using h.2)]
    have hre : cs.reverse ++ c :: acc = (c :: cs).reverse ++ acc := by simp
    rw [hre]

theorem splitWs_word (xs : List Char) (hne : xs ≠ [])
    (h : xs.all (fun c => !isWsCh c) = true) : splitWs xs = [xs] := by
  unfold splitWs
  have hx := splitWsAux_nows [] xs [] h
  rw [List.append_nil] at hx
  rw [hx, splitWsAux_nil]
  rw [if_neg (by simp [hne])]
  simp

theorem splitWs_two (xs ys : List Char) (hx : xs ≠ []) (hy : ys ≠ [])
    (hxw : xs.all (fun c => !isWsCh c) = true)
    (hyw : ys.all (fun c => !isWsCh c) = true) :
    splitWs (xs ++ ' ' :: ys) = [xs, ys] := by
  unfold splitWs
  rw [splitWsAux_nows (' ' :: ys) xs [] hxw]
  rw [splitWsAux_cons]
  rw [if_pos (by decide)]
  rw [if_neg (by simp [hx])]
  have hw := splitWs_word ys hy hyw
  unfold splitWs at hw
  rw [hw]
  simp

theorem dayName_props (d : String) (hd : d ∈ dayNames) :
    d.data ≠ [] ∧ d.data.all (fun c => !isWsCh c) = true ∧
    dayNames.contains d = true := by
  simp only [dayNames, List.mem_cons, List.not_mem_nil, or_false] at hd
  rcases hd with rfl | rfl | rfl | rfl | rfl | rfl | rfl <;>
    exact ⟨by decide, by decide, by decide⟩

theorem fmtHM_data_ne_nil (h m : Nat) : (fmtHM h m).data ≠ [] := by
  unfold fmtHM
  rw [show (String.mk (pad2 h ++ ':' :: pad2 m)).data = pad2 h ++ ':' :: pad2 m from rfl]
  intro he
  rcases List.append_eq_nil.mp he with ⟨_, h2⟩
  exact absurd h2 (by simp)

theorem fmtHM_data_nows (h m : Nat) : (fmtHM h m).data.all (fun c => !isWsCh c) = true := by
  unfold fmtHM
  rw [show (String.mk (pad2 h ++ ':' :: pad2 m)).data = pad2 h ++ ':' :: pad2 m from rfl]
  simp only [List.all_append, List.all_cons, Bool.and_eq_true]
  exact ⟨all_digits_not_ws _ (pad2_digits h), by decide, all_digits_not_ws _ (pad2_digits m)⟩

theorem shape_weekly_str (d : String) (hd : d ∈ dayNames) (h m : Nat) :
    timeSpecShape ("weekly") (.str (d ++ " " ++ fmtHM h m)) := by
  obtain ⟨h1, h2, h3⟩ := dayName_props d hd
  unfold timeSpecShape
  rw [if_neg (by decide), if_pos rfl]
  have hdata : (d ++ " " ++ fmtHM h m).data = d.data ++ ' ' :: (fmtHM h m).data := by
    rw [String.data_append, String.data_append]
    simp
  simp only [hdata]
  rw [splitWs_two d.data (fmtHM h m).data h1 (fmtHM_data_ne_nil h m) h2 (fmtHM_data_nows h m)]
  exact ⟨h3, hmShape_fmtHM h m⟩

theorem shape_weekly_default (d : String) (hd : d ∈ dayNames) :
    timeSpecShape ("weekly") (.str (d ++ " 09:00")) := by
  obtain ⟨h1, h2, h3⟩ := dayName_props d hd
  unfold timeSpecShape
  rw [if_neg (by decide), if_pos rfl]
  have hdata : (d ++ " 09:00").data = d.data ++ ' ' :: ("09:00").data := by
    rw [String.data_append]
  simp only [hdata]
  rw [splitWs_two d.data ("09:00").data h1 (by decide) h2 (by decide)]
  exact ⟨h3, by decide⟩

theorem shape_daily_str (h m : Nat) : timeSpecShape ("daily") (.str (fmtHM h m)) := by
  unfold timeSpecShape
  rw [if_pos rfl]
  exact hmShape_fmtHM h m

theorem natDec_shape (n : Nat) :
    (!(natDecS n).data.isEmpty && allDigits (natDecS n).data) = true := by
  rw [show (natDecS n).data = natDecL n from rfl]
  simp only [Bool.and_eq_true, allDigits]
  refine ⟨?_, natDecL_digits n⟩
  rcases hx : natDecL n with _ | ⟨c, cs⟩
  · exact absurd hx (natDecL_ne_nil n)
  · rfl

theorem shape_natDec (f : String) (hf : f = "hourly" ∨ f = "custom") (n : Nat) :
    timeSpecShape f (.str (natDecS n)) := by
  unfold timeSpecShape
  rcases hf with rfl | rfl
  · rw [if_neg (by decide), if_neg (by decide), if_pos (Or.inl rfl)]
    exact natDec_shape n
  · rw [if_neg (by decide), if_neg (by decide), if_pos (Or.inr rfl)]
    exact natDec_shape n

theorem shape_daily_default : timeSpecShape ("daily") (.str ("09:00")) := by
  unfold timeSpecShape
  rw [if_pos rfl]
  show hmShapeL ("09:00").data = true
  decide

theorem shape_once (x : Int) : timeSpecShape ("once") (.isoDT x) := by
  unfold timeSpecShape
  rw [if_neg (by decide), if_neg (by decide), if_neg (by decide), if_pos rfl]
  trivial

theorem tomorrowBranch_props (t : List Char) (now : Int) :
    (∀ f ts, tomorrowBranch t now = .ok (f, ts) → freqOk f ∧ timeSpecShape f ts) ∧
    (tomorrowBranch t now = .error () → hasInfixL ("tomorrow").data t = true) ∧
    (hasInfixL ("tomorrow").data t = false →
      tomorrowBranch t now = .ok ("daily", .str ("09:00"))) := by
  unfold tomorrowBranch
  by_cases htom : hasInfixL ("tomorrow").data t = true
  · rw [if_pos htom]
    rcases hadd : pyDatetimeAdd now usDay with a | tmw
    · simp only [hadd]
      refine ⟨?_, ?_, ?_⟩
      · intro f ts h
        simp at h
      · intro _
        exact htom
      · intro hrec
        rw [htom] at hrec
        simp at hrec
    · simp only [hadd]
      rcases htm : searchWith matchTime t with _ | ⟨h1, m1, ap1⟩
      · simp only [htm]
        refine ⟨?_, ?_, ?_⟩
        · intro f ts h
          simp only [Except.ok.injEq, Prod.mk.injEq] at h
          obtain ⟨hf, hts⟩ := h
          subst hf
          subst hts
          exact ⟨by decide, shape_once _⟩
        · intro h
          simp at h
        · intro hrec
          rw [htom] at hrec
          simp at hrec
      · simp only [htm]
        by_cases hok : (adjHour h1 ap1 < 24 && m1 < 60) = true
        · rw [if_pos hok]
          refine ⟨?_, ?_, ?_⟩
          · intro f ts h
            simp only [Except.ok.injEq, Prod.mk.injEq] at h
            obtain ⟨hf, hts⟩ := h
            subst hf
            subst hts
            exact ⟨by decide, shape_once _⟩
          · intro h
            simp at h
          · intro hrec
            rw [htom] at hrec
            simp at hrec
        · rw [if_neg hok]
          refine ⟨?_, ?_, ?_⟩
          · intro f ts h
            simp at h
          · intro _
            exact htom
          · intro hrec
            rw [htom] at hrec
            simp at hrec
  · rw [if_neg htom]
    refine ⟨?_, ?_, ?_⟩
    · intro f ts h
      simp only [Except.ok.injEq, Prod.mk.injEq] at h
      obtain ⟨hf, hts⟩ := h
      subst hf
      subst hts
      exact ⟨by decide, shape_daily_default⟩
    · intro h
      simp at h
    · intro _
      rfl

theorem parseCore_props (t : List Char) (now : Int) :
    (∀ f ts, parseScheduleCore t now = .ok (f, ts) → freqOk f ∧ timeSpecShape f ts) ∧
    (parseScheduleCore t now = .error () →
      (hasInfixL ("in ").data t = true ∧
       ∃ n u, searchWith matchIn t = some (n, u) ∧ inRunTime now n u = .error ()) ∨
      hasInfixL ("tomorrow").data t = true) ∧
    (recognizedCore t = false →
      parseScheduleCore t now = .ok ("daily", .str ("09:00"))) := by
  have htb := tomorrowBranch_props t now
  unfold parseScheduleCore recognizedCore
  rcases hd : searchWith matchDaily t with _ | ⟨h0, m0, ap0⟩
  · simp only [hd]
    by_cases hed : hasInfixL ("every day").data t = true
    · rw [if_pos hed]
      refine ⟨?_, ?_, ?_⟩
      · intro f ts h
        simp only [Except.ok.injEq, Prod.mk.injEq] at h
        obtain ⟨hf, hts⟩ := h
        subst hf
        subst hts
        exact ⟨by decide, shape_daily_default⟩
      · intro h
        simp at h
      · intro _
        rfl
    · rw [if_neg hed]
      rcases hfd : findDay t with _ | day
      · simp only [hfd]
        rcases hhr : searchWith matchHourly t with _ | mh
        · simp only [hhr]
          rcases hiv : searchWith matchInterval t with _ | vi
          · simp only [hiv]
            by_cases hinf : hasInfixL ("in ").data t = true
            · rw [if_pos hinf]
              rcases hmi : searchWith matchIn t with _ | ⟨n, u⟩
              · simp only [hmi]
                refine ⟨htb.1, fun h => Or.inr (htb.2.1 h), ?_⟩
                intro hrec
                apply htb.2.2
                rcases hx : hasInfixL ("tomorrow").data t with _ | _
                · rfl
                · rw [hx] at hrec
                  simp at hrec
              · simp only [hmi]
                rcases hrt : inRunTime now n u with a | rt
                · simp only [hrt]
                  refine ⟨?_, ?_, ?_⟩
                  · intro f ts h
                    simp at h
                  · intro _
                    exact Or.inl ⟨hinf, n, u, rfl, hrt⟩
                  · intro hrec
                    rw [hinf] at hrec
                    simp at hrec
                · simp only [hrt]
                  refine ⟨?_, ?_, ?_⟩
                  · intro f ts h
                    simp only [Except.ok.injEq, Prod.mk.injEq] at h
                    obtain ⟨hf, hts⟩ := h
                    subst hf
                    subst hts
                    exact ⟨by decide, shape_once _⟩
                  · intro h
                    simp at h
                  · intro hrec
                    rw [hinf] at hrec
                    simp at hrec
            · rw [if_neg hinf]
              refine ⟨htb.1, fun h => Or.inr (htb.2.1 h), ?_⟩
              intro hrec
              apply htb.2.2
              rcases hx : hasInfixL ("tomorrow").data t with _ | _
              · rfl
              · rw [hx] at hrec
                simp at hrec
          · simp only [hiv]
            refine ⟨?_, ?_, ?_⟩
            · intro f ts h
              simp only [Except.ok.injEq, Prod.mk.injEq] at h
              obtain ⟨hf, hts⟩ := h
              subst hf
              subst hts
              exact ⟨by decide, shape_natDec ("custom") (Or.inr rfl) vi⟩
            · intro h
              simp at h
            · intro hrec
              simp at hrec
        · simp only [hhr]
          refine ⟨?_, ?_, ?_⟩
          · intro f ts h
            simp only [Except.ok.injEq, Prod.mk.injEq] at h
            obtain ⟨hf, hts⟩ := h
            subst hf
            subst hts
            exact ⟨by decide, shape_natDec ("hourly") (Or.inl rfl) mh⟩
          · intro h
            simp at h
          · intro hrec
            simp at hrec
      · simp only [hfd]
        have hmem : day ∈ dayNames := by
          unfold findDay at hfd
          exact List.mem_of_find?_eq_some hfd
        rcases htm : searchWith matchTime t with _ | ⟨h1, m1, ap1⟩
        · simp only [htm]
          refine ⟨?_, ?_, ?_⟩
          · intro f ts h
            simp only [Except.ok.injEq, Prod.mk.injEq] at h
            obtain ⟨hf, hts⟩ := h
            subst hf
            subst hts
            exact ⟨by decide, shape_weekly_default day hmem⟩
          · intro h
            simp at h
          · intro hrec
            simp at hrec
        · simp only [htm]
          refine ⟨?_, ?_, ?_⟩
          · intro f ts h
            simp only [Except.ok.injEq, Prod.mk.injEq] at h
            obtain ⟨hf, hts⟩ := h
            subst hf
            subst hts
            exact ⟨by decide, shape_weekly_str day hmem _ _⟩
          · intro h
            simp at h
          · intro hrec
            simp at hrec
  · simp only [hd]
    refine ⟨?_, ?_, ?_⟩
    · intro f ts h
      simp only [Except.ok.injEq, Prod.mk.injEq] at h
      obtain ⟨hf, hts⟩ := h
      subst hf
      subst hts
      exact ⟨by decide, shape_daily_str _ _⟩
    · intro h
      simp at h
    · intro hrec
      simp at hrec

/-- C6 (amended): parse_schedule_input always returns a pair whose frequency
is one of once/daily/weekly/hourly/custom and whose time_spec has the
syntactic shape of the §4.1 grammar for that frequency — daily a
digits:digits HH:MM, weekly a day name plus such an HH:MM, hourly and custom
a nonempty decimal digit string, once a computed ISO timestamp — except that
numeric fields are NOT range-checked (hour and minute captures can reach 99,
see the counterexample); it can raise, and every raise is either an
OverflowError of the `in N minute/hour/day` branch (the timedelta exceeding
999999999 days, or `datetime.now() + delta` leaving the
`datetime.min ..datetime.max` range) or arises inside the `tomorrow` branch
(out-of-range captured time for `datetime.replace`, or the `+ 1 day`
overflowing near `datetime.max`); and when nothing recognizable is found the
result is ("daily", "09:00"). -/
theorem c6_parse_output_shape (text : String) (now : Int) :
    (∀ f ts, parseScheduleInput text now = .ok (f, ts) → freqOk f ∧ timeSpecShape f ts) ∧
    (parseScheduleInput text now = .error () →
      (hasInfixL ("in ").data (pyStrip (lowerL text.data)) = true ∧
       ∃ n u, searchWith matchIn (pyStrip (lowerL text.data)) = some (n, u) ∧
         inRunTime now n u = .error ()) ∨
      hasInfixL ("tomorrow").data (pyStrip (lowerL text.data)) = true) ∧
    (recognizedInput text = false →
      parseScheduleInput text now = .ok ("daily", .str ("09:00"))) := by
  unfold parseScheduleInput recognizedInput
  exact parseCore_props (pyStrip (lowerL text.data)) now

/-- C6 counterexample: "daily at 99" parses (without raising) to time_spec
"99:00", which is not a valid 24-hour HH:MM of the §4.1 daily grammar (hour
0-23); "tomorrow at 99" raises a ValueError out of parse_schedule_input
(`tomorrow.replace(hour=99)` is out of range); "in 3000000 days" raises an
OverflowError (`datetime.now() + timedelta(days=3000000)` passes
`datetime.max`); and "in 2000000000 days" raises an OverflowError already in
`timedelta(days=2000000000)` (beyond its 999999999-day bound) — each
contradicting the never-raises contract, the first also the exact grammar
conformance. -/
theorem c6_counterexample :
    parseScheduleInput ("daily at 99") 0 = .ok ("daily", .str ("99:00")) ∧
    validDailyHHMM ("99:00") = false ∧
    parseScheduleInput ("tomorrow at 99") 0 = .error () ∧
    parseScheduleInput ("in 3000000 days") 0 = .error () ∧
    parseScheduleInput ("in 2000000000 days") 0 = .error () := by decide

/-- Witness for C6 at Scenario A's input. -/
theorem c6_witness :
    parseScheduleInput ("daily at 9am") 0 = .ok ("daily", .str ("09:00")) ∧
    freqOk ("daily") ∧ timeSpecShape ("daily") (.str ("09:00")) :=
  ⟨by decide,
   (c6_parse_output_shape ("daily at 9am") 0).1 ("daily") (.str ("09:00")) (by decide)⟩

theorem sanity_calc :
    calculateNextRun ("once") ("garbage") 0 = .raw ("garbage") ∧
    calculateNextRun ("daily") ("09:00") (10 * usHour) = .iso (usDay + 9 * usHour) ∧
    calculateNextRun ("daily") ("09:00") (8 * usHour) = .iso (9 * usHour) ∧
    calculateNextRun ("daily") ("25:00") (8 * usHour) = .iso (8 * usHour + usDay) ∧
    calculateNextRun ("weekly") ("monday 10:30") (usDay + usHour) =
      .iso (7 * usDay + 10 * usHour + 30 * usMin) ∧
    calculateNextRun ("weekly") ("3 00:00") 0 = .iso (3 * usDay) ∧
    calculateNextRun ("hourly") ("30") (45 * usMin) = .iso (usHour + 30 * usMin) ∧
    calculateNextRun ("custom") ("30") 0 = .iso (30 * usMin) ∧
    calculateNextRun ("custom") ("0") 0 = .iso 0 ∧
    calculateNextRun ("bogus") ("x") 0 = .iso usHour ∧
    mkTaskId 1 500000 = "task_1_20240101000000" := by decide

theorem sanity_calendar :
    civilFromDays 0 = (2024, 1, 1) ∧ daysFromCivil 2024 1 1 = 0 ∧
    daysFromCivil 2025 3 1 = 425 ∧ civilFromDays 425 = (2025, 3, 1) ∧
    fmtStamp 500000 = "20240101000000" ∧
    isoParseS ("2024-01-02T00:30:00") = some (usDay + 30 * usMin) ∧
    isoParseS ("garbage") = none ∧
    pyIntS (" -5") = some (-5) ∧ pyIntS ("1_0") = some 10 ∧ pyIntS ("") = none ∧
    hmOfSpec ("09:30").data = some (9, 30) ∧
    natDecS 907 = "907" ∧
    daysFromCivil 1 1 1 = -738885 ∧ daysFromCivil 9999 12 31 = 2913173 ∧
    pyTimedelta 999999999 InUnit.day = .ok (999999999 * usDay) ∧
    pyTimedelta 1000000000 InUnit.day = .error () ∧
    pyDatetimeAdd 0 (2913173 * usDay) = .ok (2913173 * usDay) ∧
    pyDatetimeAdd 0 (2913174 * usDay) = .error () := by decide

